import Mathlib

/- Verification of the auto-abloop audio analysis engine (src/analysis.rs,
src/player.rs, src/lib.rs).

The Rust code computes over f32.  The embedding idealizes f32 arithmetic as
exact arithmetic (the spec describes the algorithm mathematically, and every
branch threshold in the code is coarse enough that rounding is immaterial).
Every number the analyzer manipulates is obtained from the rational input
samples by ring operations, division, and square roots that are immediately
consumed by a comparison, a multiplication or a division -- never an
addition.  Such values all have the shape q * sqrt r with q r rational, so
they are represented exactly by the computable type SqrtQ below, which has a
decidable order agreeing with the order of the real numbers it denotes. -/

namespace AutoAbloop

/-- Exact value of the form coef * sqrt rad.  All radicands produced by the
analyzer are nonnegative (they are sums of squares or products of such). -/
structure SqrtQ where
  coef : ℚ
  rad : ℚ
deriving DecidableEq, Repr

namespace SqrtQ

/-- Embed a rational constant (sqrt 1 = 1). -/
def ofRat (q : ℚ) : SqrtQ := ⟨q, 1⟩

/-- Embedding of the f32 sqrt of a rational value. -/
def sqrtQ (q : ℚ) : SqrtQ := ⟨1, q⟩

/-- Product: (a √r)(b √s) = ab √(rs), valid for nonnegative radicands. -/
def mul (a b : SqrtQ) : SqrtQ := ⟨a.coef * b.coef, a.rad * b.rad⟩

/-- Quotient: (a √r)/(b √s) = (a/(b s)) √(rs), valid for s > 0, b ≠ 0. -/
def div (a b : SqrtQ) : SqrtQ := ⟨a.coef / (b.coef * b.rad), a.rad * b.rad⟩

/-- Sign of the denoted real (for nonnegative radicands): 0 when the value is
zero, 1 when positive, -1 when negative. -/
def sgn (a : SqrtQ) : Int :=
  if a.rad ≤ 0 then 0 else if a.coef < 0 then -1 else if a.coef = 0 then 0 else 1

/-- Square of the denoted real: (c √r)^2 = c^2 r. -/
def sq (a : SqrtQ) : ℚ := a.coef ^ 2 * a.rad

/-- Decidable strict order, agreeing with the real order on nonnegative
radicands (theorem blt_iff_lt below). -/
def blt (a b : SqrtQ) : Bool :=
  if a.sgn < b.sgn then true
  else if b.sgn < a.sgn then false
  else if 0 < a.sgn then decide (a.sq < b.sq)
  else if a.sgn < 0 then decide (b.sq < a.sq)
  else false

/-- Real number denoted by a SqrtQ value. -/
noncomputable def toReal (a : SqrtQ) : ℝ := (a.coef : ℝ) * Real.sqrt (a.rad : ℝ)

end SqrtQ



/- Data model (src/lib.rs).  Machine integers usize/u32/u16 are embedded as
Nat; the two places where subtraction could underflow a usize in the source
use saturating_sub (embedded as Nat truncated subtraction, which has the
same semantics) except for one unguarded subtraction in detect_loop_fft,
embedded below as wrapSub64 (the wrapping semantics of release builds). -/

/-- Decoded audio (the shape consumed from the decoder collaborator):
interleaved f32 samples, sample rate, channel count. -/
structure AudioData where
  samples : List ℚ
  sample_rate : ℕ
  channels : ℕ
deriving DecidableEq, Repr

/-- Result loop points, indices in the original interleaved sample space. -/
structure LoopPoints where
  start_sample : ℕ
  end_sample : ℕ
  confidence : SqrtQ
deriving DecidableEq, Repr

/-- Detected fade-out region, indices in the original interleaved space. -/
structure FadeOutInfo where
  start_sample : ℕ
  duration_samples : ℕ
  confidence : SqrtQ
deriving DecidableEq, Repr

/-- Loop-detection mode selector. -/
inductive DetectionMode where
  | Auto
  | LoopOnly
  | FadeOutOnly
deriving DecidableEq, Repr

/-- Fade-out handling mode selector. -/
inductive FadeOutMode where
  | Auto
  | None
  | Only
deriving DecidableEq, Repr

/-- Immutable analysis configuration. -/
structure AnalysisSettings where
  detection_mode : DetectionMode
  fade_out_mode : FadeOutMode
  fade_out_threshold_volume : ℚ
  fade_out_window_size_ms : ℕ
  min_fade_out_duration_ms : ℕ
  fade_out_buffer_ms : ℕ
deriving DecidableEq, Repr

/-- Default settings (impl Default for AnalysisSettings). -/
def AnalysisSettings.default : AnalysisSettings :=
  ⟨DetectionMode.Auto, FadeOutMode.Auto, 1 / 10, 50, 1000, 100⟩

/-- Product of one orchestrator run. -/
structure AnalysisResult where
  loop_points : Option LoopPoints
  fade_out_info : Option FadeOutInfo
deriving DecidableEq, Repr

/- Constants from src/analysis.rs lines 5-9. -/

def COARSE_SAMPLE_RATE : ℕ := 4000

/-- Query duration in seconds (15.0); multiplied by the integer sample rate
the f32 product is exact, so query_len_samples = 15 * sample_rate. -/
def QUERY_DURATION_SEC : ℕ := 15

def MIN_LOOP_DURATION_SEC : ℕ := 10

def SILENCE_THRESHOLD : ℚ := 1 / 1000

/-- Epsilon used in the denominator guards (1e-9). -/
def EPS : ℚ := 1 / 1000000000

/-- Rust slice expression data[a..b]. -/
def slice (l : List ℚ) (a b : ℕ) : List ℚ := (l.drop a).take (b - a)

/-- Millisecond-to-sample conversion (ms as f32 / 1000.0 * sr as f32) as
usize: exact value ms * sr / 1000 truncated toward zero. -/
def msToSamples (ms sample_rate : ℕ) : ℕ := ms * sample_rate / 1000

/-- Downmixer (analysis.rs mix_to_mono): chunks_exact(channels) keeps only
the full channel groups (length len / channels) and maps each group to its
arithmetic mean. -/
def mix_to_mono (audio : AudioData) : List ℚ :=
  let channels := audio.channels
  if channels = 1 then audio.samples
  else
    (List.range (audio.samples.length / channels)).map
      (fun i => (slice audio.samples (i * channels) (i * channels + channels)).sum /
        (channels : ℚ))

/-- Silence trimmer (analysis.rs find_effective_end): scan backwards, return
i + 1 for the last index whose magnitude exceeds the threshold, or the full
length if none does. -/
def find_effective_end (mono : List ℚ) (threshold : ℚ) : ℕ :=
  match (List.range mono.length).reverse.find? (fun i => decide (threshold < |mono.getD i 0|)) with
  | some i => i + 1
  | none => mono.length

/-- Box-filter downsampler (analysis.rs downsample): identity for step <= 1,
otherwise the mean of each chunk of size step (last chunk may be partial,
as with Rust chunks). -/
def downsample (data : List ℚ) (step : ℕ) : List ℚ :=
  if step ≤ 1 then data
  else
    (List.range ((data.length + step - 1) / step)).map
      (fun i =>
        let chunk := slice data (i * step) (i * step + step)
        chunk.sum / (chunk.length : ℚ))

/-- Slide phase of compute_moving_sum_squares: for i in 1..=(len - w),
remove the outgoing square, add the incoming square, clamp negative float
drift to zero (a no-op in exact arithmetic, kept faithfully). -/
def movingSumGo (data : List ℚ) (w : ℕ) : ℕ → ℕ → ℚ → List ℚ
  | 0, _, _ => []
  | fuel + 1, i, current =>
    let rm := data.getD (i - 1) 0
    let ad := data.getD (i + w - 1) 0
    let s := current - rm * rm + ad * ad
    let s2 := if s < 0 then 0 else s
    s2 :: movingSumGo data w fuel (i + 1) s2

/-- Sliding local energy (analysis.rs compute_moving_sum_squares). -/
def compute_moving_sum_squares (data : List ℚ) (window_size : ℕ) : List ℚ :=
  let current := ((slice data 0 window_size).map (fun x => x * x)).sum
  current :: movingSumGo data window_size (data.length - window_size) 1 current

/-- Value result[k] * scale of find_best_lag_fft at k = lag + (m - 1): the
forward/inverse real FFT pair over a power-of-two length >= n + m computes,
in exact arithmetic, exactly the linear convolution of the zero-padded
signal with the time-reversed zero-padded query divided by fft_len after
the explicit scale factor; at index k that convolution is the dot product
of the query with signal[lag..lag+m] (signal taken as 0 past its end, the
zero padding).  The FFT library is the opaque external collaborator of the
spec, so it is embedded by this exact value. -/
def dotAt (signal query : List ℚ) (lag : ℕ) : ℚ :=
  ((List.range query.length).map (fun i => query.getD i 0 * signal.getD (lag + i) 0)).sum

/-- Body of the lag scan of find_best_lag_fft (one iteration, lag already
in range: the source iterates k over (m-1)..result.len() and breaks at
lag >= search_limit, which is exactly the lags 0..search_limit since
result.len() = fft_len >= n + m exceeds search_limit + m - 1). -/
def coarseStep (signal query local_energy : List ℚ) (query_norm : SqrtQ) :
    ℕ × SqrtQ → ℕ → ℕ × SqrtQ :=
  fun acc lag =>
    let dot_product := dotAt signal query lag
    if lag < local_energy.length then
      let signal_norm := SqrtQ.sqrtQ (local_energy.getD lag 0)
      let denom := signal_norm.mul query_norm
      if SqrtQ.blt (SqrtQ.ofRat EPS) denom then
        let corr := SqrtQ.div (SqrtQ.ofRat dot_product) denom
        if SqrtQ.blt acc.2 corr then (lag, corr) else acc
      else acc
    else acc

/-- Coarse matcher (analysis.rs find_best_lag_fft): energy-normalized
cross-correlation via FFT, best lag under search_limit = n - (m + 100)
(saturating), None when the signal is shorter than the query or the best
correlation is not strictly positive. -/
def find_best_lag_fft (signal query : List ℚ) : Option ℕ :=
  let n := signal.length
  let m := query.length
  if n < m then none
  else
    let local_energy := compute_moving_sum_squares signal m
    let query_energy := (query.map (fun x => x * x)).sum
    let query_norm := SqrtQ.sqrtQ query_energy
    let search_limit := n - (m + 100)
    let best := (List.range search_limit).foldl
      (coarseStep signal query local_energy query_norm) (0, SqrtQ.ofRat (-1))
    if SqrtQ.blt (SqrtQ.ofRat 0) best.2 then some best.1 else none

/-- Centered sum of squares Σ (x - mean)^2 of a window. -/
def centeredSumSq (l : List ℚ) (mean : ℚ) : ℚ := (l.map (fun x => (x - mean) ^ 2)).sum

/-- NCC numerator Σ (q - q̄)(c - c̄) over the zipped windows. -/
def nccNumer (query candidate : List ℚ) (qmean cmean : ℚ) : ℚ :=
  (List.zipWith (fun q c => (q - qmean) * (c - cmean)) query candidate).sum

/-- Body of the candidate scan of find_best_match_ncc_fine (one offset i). -/
def fineStep (query mono : List ℚ) (qmean : ℚ) (qdenom : SqrtQ) (search_start : ℕ) :
    ℕ × SqrtQ → ℕ → ℕ × SqrtQ :=
  fun acc i =>
    let m := query.length
    let candidate := slice mono i (i + m)
    let cmean := candidate.sum / (m : ℚ)
    let cdenom := SqrtQ.sqrtQ (centeredSumSq candidate cmean)
    if SqrtQ.blt cdenom (SqrtQ.ofRat EPS) then acc
    else
      let corr := SqrtQ.div (SqrtQ.ofRat (nccNumer query candidate qmean cmean))
        (qdenom.mul cdenom)
      if SqrtQ.blt acc.2 corr then (i - search_start, corr) else acc

/-- Fine matcher (analysis.rs find_best_match_ncc_fine): brute-force
normalized cross-correlation of the query against every candidate offset in
[search_start_idx, max_offset), returning (best offset relative to
search_start_idx, best correlation). -/
def find_best_match_ncc_fine (query full_mono : List ℚ)
    (search_start_idx search_end_idx : ℕ) : ℕ × SqrtQ :=
  let m := query.length
  let query_mean := query.sum / (m : ℚ)
  let query_denom := SqrtQ.sqrtQ (centeredSumSq query query_mean)
  if SqrtQ.blt query_denom (SqrtQ.ofRat EPS) then (0, SqrtQ.ofRat 0)
  else
    let max_offset := min search_end_idx (full_mono.length - m)
    if max_offset < search_start_idx then (0, SqrtQ.ofRat 0)
    else
      (List.range' search_start_idx (max_offset - search_start_idx)).foldl
        (fineStep query full_mono query_mean query_denom search_start_idx)
        (0, SqrtQ.ofRat (-1))

/-- Wrapping usize subtraction: the expression query_start_idx - 1000 at
analysis.rs line 140 is an unguarded usize subtraction.  When
query_start_idx < 1000 it underflows: release builds wrap modulo 2^64
(embedded here); debug builds panic (see the code_bug record for C6). -/
def wrapSub64 (a b : ℕ) : ℕ := (a + 2 ^ 64 - b) % 2 ^ 64

/-- Loop detector (analysis.rs detect_loop_fft): coarse FFT pass, fine NCC
refinement around the projected coarse lag, 0.3 correlation gate, result
converted back to interleaved indices. -/
def detect_loop_fft (mono : List ℚ) (sample_rate : ℕ) (search_end_idx : ℕ)
    (original_channels : ℕ) : Option LoopPoints :=
  let query_len_samples := QUERY_DURATION_SEC * sample_rate
  if search_end_idx < query_len_samples * 2 then none
  else
    let query_start_idx := search_end_idx - query_len_samples
    let query_raw := slice mono query_start_idx search_end_idx
    let downsample_factor := max (sample_rate / COARSE_SAMPLE_RATE) 1
    let coarse_signal := downsample (slice mono 0 search_end_idx) downsample_factor
    let coarse_query := downsample query_raw downsample_factor
    match find_best_lag_fft coarse_signal coarse_query with
    | none => none
    | some best_coarse_lag =>
      let estimated_lag_samples := best_coarse_lag * downsample_factor
      let refine_radius := sample_rate * 2 % 2 ^ 32
      let search_start := estimated_lag_samples - refine_radius
      let search_end := min (estimated_lag_samples + refine_radius)
        (wrapSub64 query_start_idx 1000)
      if search_end ≤ search_start then none
      else
        let res := find_best_match_ncc_fine query_raw mono search_start search_end
        if SqrtQ.blt res.2 (SqrtQ.ofRat (3 / 10)) then none
        else
          some ⟨(search_start + res.1) * original_channels,
            search_end_idx * original_channels, res.2⟩

/-- RMS of a window (analysis.rs calculate_rms): sqrt of the mean square
with the 1e-9 denominator guard. -/
def calculate_rms (data : List ℚ) : SqrtQ :=
  SqrtQ.sqrtQ ((data.map (fun x => x * x)).sum / ((data.length : ℚ) + EPS))

/-- Backward RMS scan of detect_fade_out: while curr >= scan_start + w and
curr >= w, step back by w and record (rms of the window, window start).
The source keeps the rms values and the indices in two parallel Vecs;
they are fused into one list of pairs here.  Fuel bounds the iteration
count; it is called with fuel = curr + 1, enough for any w >= 1 (the w = 0
case is unreachable behind the window-size guard). -/
def fadeScan (mono : List ℚ) (scan_start w : ℕ) : ℕ → ℕ → List (SqrtQ × ℕ)
  | 0, _ => []
  | fuel + 1, curr =>
    if scan_start + w ≤ curr ∧ w ≤ curr then
      let c := curr - w
      (calculate_rms (slice mono c (c + w)), c) :: fadeScan mono scan_start w fuel c
    else []

/-- Longest-increasing-run scan of detect_fade_out: for i in
0..history.len()-1, move the fade start to i+1 on a strict rise, break on a
drop of more than 10 percent, otherwise continue.  Called with
fuel = history.len() - 1 and i = acc = 0. -/
def scanFade (h : List SqrtQ) : ℕ → ℕ → ℕ → ℕ
  | 0, _, acc => acc
  | fuel + 1, i, acc =>
    let z := SqrtQ.ofRat 0
    if SqrtQ.blt (h.getD i z) (h.getD (i + 1) z) then scanFade h fuel (i + 1) (i + 1)
    else if SqrtQ.blt (h.getD (i + 1) z) ((h.getD i z).mul (SqrtQ.ofRat (9 / 10))) then acc
    else scanFade h fuel (i + 1) acc

/-- Fade-out detector (analysis.rs detect_fade_out). -/
def detect_fade_out (mono : List ℚ) (sample_rate : ℕ) (channels : ℕ)
    (settings : AnalysisSettings) : Option FadeOutInfo :=
  let silence_threshold := settings.fade_out_threshold_volume * (1 / 2)
  let effective_end_idx := find_effective_end mono silence_threshold
  let min_audio_samples := 5 * sample_rate
  if effective_end_idx < min_audio_samples then none
  else
    let window_size_samples := msToSamples settings.fade_out_window_size_ms sample_rate
    if window_size_samples = 0 ∨ effective_end_idx ≤ window_size_samples then none
    else
      let scan_start := effective_end_idx - sample_rate * 60
      let hist := fadeScan mono scan_start window_size_samples
        (effective_end_idx + 1) effective_end_idx
      if hist.length < 5 then none
      else
        let fade_start_idx_in_history :=
          scanFade (hist.map Prod.fst) (hist.length - 1) 0 0
        let start_sample := (hist.getD fade_start_idx_in_history (SqrtQ.ofRat 0, 0)).2
        let end_sample := effective_end_idx
        let duration := end_sample - start_sample
        let min_duration := msToSamples settings.min_fade_out_duration_ms sample_rate
        if duration < min_duration then none
        else
          let start_rms := (hist.getD fade_start_idx_in_history (SqrtQ.ofRat 0, 0)).1
          let end_rms := (hist.getD 0 (SqrtQ.ofRat 0, 0)).1
          if SqrtQ.blt start_rms (SqrtQ.ofRat settings.fade_out_threshold_volume) then none
          else if SqrtQ.blt start_rms (end_rms.mul (SqrtQ.ofRat 2)) then none
          else some ⟨start_sample * channels, duration * channels, SqrtQ.ofRat (4 / 5)⟩

/-- Effective end of the searchable region chosen by the orchestrator
(analysis.rs lines 44-55): behind a detected fade-out onset minus the
safety buffer, or before trailing silence when no fade-out was found. -/
def searchEndIdx (mono : List ℚ) (sample_rate channels : ℕ)
    (settings : AnalysisSettings) (fade_out_info : Option FadeOutInfo) : ℕ :=
  match fade_out_info with
  | some fo =>
    let fo_start_mono := fo.start_sample / channels
    let buffer := msToSamples settings.fade_out_buffer_ms sample_rate
    fo_start_mono - buffer
  | none => find_effective_end mono SILENCE_THRESHOLD

/-- Loop branch of the orchestrator (analysis.rs lines 40-77): length
gate, detection, and the post-processing clamp of the loop end to the
searchable region. -/
def loopPass (mono_samples : List ℚ) (sample_rate channels : ℕ)
    (settings : AnalysisSettings) (fade_out_info : Option FadeOutInfo) :
    Option LoopPoints :=
  let search_end_idx := searchEndIdx mono_samples sample_rate channels settings fade_out_info
  if search_end_idx < MIN_LOOP_DURATION_SEC * sample_rate then none
  else
    match detect_loop_fft mono_samples sample_rate search_end_idx channels with
    | none => none
    | some lp =>
      let max_end := search_end_idx * channels
      if max_end < lp.end_sample then some { lp with end_sample := max_end }
      else some lp

/-- Analysis orchestrator (analysis.rs run_analysis_with_progress; the
progress callback only emits status strings and is dropped).  run_analysis
delegates to it with a trivial callback, so both entry points are this one
function. -/
def run_analysis (audio : AudioData) (settings : AnalysisSettings) : AnalysisResult :=
  let mono_samples := mix_to_mono audio
  let sample_rate := audio.sample_rate
  let channels := audio.channels
  let fade_out_info :=
    if settings.fade_out_mode = FadeOutMode.None then none
    else detect_fade_out mono_samples sample_rate channels settings
  let loop_points :=
    match settings.detection_mode with
    | DetectionMode.FadeOutOnly => none
    | DetectionMode.LoopOnly =>
      loopPass mono_samples sample_rate channels settings fade_out_info
    | DetectionMode.Auto =>
      loopPass mono_samples sample_rate channels settings fade_out_info
  { loop_points := loop_points, fade_out_info := fade_out_info }

/- Playback iterator (src/player.rs). -/

/-- Looping playback source state. -/
structure LoopingSource where
  data : AudioData
  loop_points : LoopPoints
  cursor : ℕ
  loop_count : ℕ
  max_loops : Option ℕ
deriving DecidableEq, Repr

/-- Constructor LoopingSource::new. -/
def LoopingSource.new (data : AudioData) (loop_points : LoopPoints)
    (max_loops : Option ℕ) : LoopingSource :=
  ⟨data, loop_points, 0, 0, max_loops⟩

/-- Iterator::next for LoopingSource (player.rs lines 29-56): emit the
sample under the cursor, advance, and jump back to start_sample when
looping is still allowed, the advanced cursor reached end_sample, and the
advanced cursor is frame aligned. -/
def LoopingSource.next (s : LoopingSource) : Option (ℚ × LoopingSource) :=
  if s.data.samples.length ≤ s.cursor then none
  else
    let sample := s.data.samples.getD s.cursor 0
    let cursor := s.cursor + 1
    let should_loop : Bool :=
      match s.max_loops with
      | some mx => decide (s.loop_count < mx)
      | none => true
    if should_loop = true then
      if s.loop_points.end_sample ≤ cursor then
        if cursor % s.data.channels = 0 then
          some (sample,
            { s with cursor := s.loop_points.start_sample, loop_count := s.loop_count + 1 })
        else some (sample, { s with cursor := cursor })
      else some (sample, { s with cursor := cursor })
    else some (sample, { s with cursor := cursor })

/-- State after n yielded samples (none once the iterator is exhausted). -/
def LoopingSource.runN : ℕ → LoopingSource → Option LoopingSource
  | 0, s => some s
  | n + 1, s =>
    match s.next with
    | none => none
    | some (_, s2) => LoopingSource.runN n s2



/- Proof-side abbreviations: names for the internal let-bindings of
detect_loop_fft (definitionally equal to the inlined expressions). -/

/-- Downsample factor chosen by detect_loop_fft. -/
def coarseF (sr : ℕ) : ℕ := max (sr / COARSE_SAMPLE_RATE) 1

/-- Refinement radius (sample_rate * 2 in u32 arithmetic). -/
def refineRadius (sr : ℕ) : ℕ := sr * 2 % 2 ^ 32

/-- The fine-search start for a given coarse lag. -/
def refineStart (sr lag : ℕ) : ℕ := lag * coarseF sr - refineRadius sr

/-- The fine-search end for a given coarse lag and search region end. -/
def refineEnd (sr lag e : ℕ) : ℕ :=
  min (lag * coarseF sr + refineRadius sr) (wrapSub64 (e - QUERY_DURATION_SEC * sr) 1000)

/-- The 15-second query window of the searchable region. -/
def queryRaw (mono : List ℚ) (sr e : ℕ) : List ℚ := slice mono (e - QUERY_DURATION_SEC * sr) e

/-- Correlation value computed by fineStep at offset i (the update value of
the fine scan). -/
def nccAt (query mono : List ℚ) (qmean : ℚ) (qdenom : SqrtQ) (i : ℕ) : SqrtQ :=
  let m := query.length
  let candidate := slice mono i (i + m)
  let cmean := candidate.sum / (m : ℚ)
  SqrtQ.div (SqrtQ.ofRat (nccNumer query candidate qmean cmean))
    (qdenom.mul (SqrtQ.sqrtQ (centeredSumSq candidate cmean)))

/-- Control-flow probe for the unguarded usize subtraction at analysis.rs
line 140 (query_start_idx - 1000): replicates run_analysis exactly up to
that expression and reports whether it is reached with
query_start_idx < 1000, i.e. whether the subtraction underflows.  Debug
builds panic at that point; release builds wrap (the wrapSub64 semantics
used by the main embedding). -/
def reachesRefineUnderflow (audio : AudioData) (settings : AnalysisSettings) : Bool :=
  let mono := mix_to_mono audio
  let sr := audio.sample_rate
  let ch := audio.channels
  let fade :=
    if settings.fade_out_mode = FadeOutMode.None then none
    else detect_fade_out mono sr ch settings
  match settings.detection_mode with
  | DetectionMode.FadeOutOnly => false
  | _ =>
    let e := searchEndIdx mono sr ch settings fade
    if e < MIN_LOOP_DURATION_SEC * sr then false
    else
      let qlen := QUERY_DURATION_SEC * sr
      if e < qlen * 2 then false
      else
        match find_best_lag_fft (downsample (slice mono 0 e) (coarseF sr))
          (downsample (slice mono (e - qlen) e) (coarseF sr)) with
        | none => false
        | some _ => decide (e - qlen < 1000)

/-- Modelled from the spec (section 4.5, volume-ratio correction), which the
code under src/ does not implement: the adjusted confidence the claim
describes, as a function of the base confidence and the volume ratio.
Spec-side comparison definition only. -/
noncomputable def specVolumeRatioAdjust (conf r : ℝ) : ℝ :=
  if 12 / 10 < r ∧ 6 / 10 < conf then min (conf + 2 / 10) 1
  else if r < 8 / 10 then conf * (8 / 10)
  else conf

/- Concrete test vectors.  A degenerate sample rate of 1 Hz keeps the
signals short enough for the kernel to evaluate the full pipeline while
exercising every branch of the real code. -/

/-- The 15-sample alternating query pattern (non-degenerate variance). -/
def patP : List ℚ :=
  [1/2, -(1/2), 1/2, -(1/2), 1/2, -(1/2), 1/2, -(1/2), 1/2, -(1/2), 1/2, -(1/2), 1/2,
    -(1/2), 1/2]

/-- Constant filler between the two copies of the pattern. -/
def fillerA : List ℚ := List.replicate 86 (2/5)

/-- A seven-sample linearly decaying tail (a fade-out at 1 Hz). -/
def tailFade : List ℚ := [4/5, 7/10, 3/5, 1/2, 2/5, 3/10, 1/5]

/-- 123-sample track: pattern at [0,15), filler, the same pattern again at
[101,116), and a decaying tail at [116,123).  Both a loop and a fade-out
are detected on it. -/
def audio1 : AudioData := ⟨patP ++ fillerA ++ patP ++ tailFade, 1, 1⟩

/-- Settings with a zero fade-out buffer (fade_out_buffer_ms = 0). -/
def settings1 : AnalysisSettings :=
  ⟨DetectionMode.Auto, FadeOutMode.Auto, 1/10, 1000, 1000, 0⟩

/-- 116-sample track whose head [0,15) is the query pattern at half
amplitude: the fine pass matches it with correlation exactly 1 while the
matched window is 2x quieter than the query. -/
def audio2 : AudioData := ⟨patP.map (fun x => x / 2) ++ fillerA ++ patP, 1, 1⟩

/-- Settings with fade-out detection disabled. -/
def settings2 : AnalysisSettings :=
  ⟨DetectionMode.Auto, FadeOutMode.None, 1/10, 1000, 1000, 100⟩

/-- 13-sample constant tone with a linear fade tail (fade-out witness). -/
def audioFade : AudioData :=
  ⟨[4/5, 4/5, 4/5, 4/5, 4/5, 4/5, 4/5, 7/10, 3/5, 1/2, 2/5, 3/10, 1/5], 1, 1⟩

/-- 20-sample track: longer than the 10-second orchestrator minimum but
shorter than twice the query duration. -/
def audioShort : AudioData := ⟨List.replicate 20 (1/2), 1, 1⟩

/-- Loop points produced on audio1. -/
def lp1v : LoopPoints := ⟨0, 116, ⟨15/56, 3136/225⟩⟩

/-- Fade-out info produced on audio1 and its settings. -/
def fo1v : FadeOutInfo := ⟨116, 7, SqrtQ.ofRat (4/5)⟩

/-- Loop points produced on audio2 (confidence denotes exactly 1). -/
def lp2v : LoopPoints := ⟨0, 116, ⟨15/28, 784/225⟩⟩

/-- Four-sample audio for the playback iterator tests. -/
def audioPlay : AudioData := ⟨[1, 2, 3, 4], 44100, 1⟩

/-- Loop body [0, 2) for the playback iterator tests. -/
def lpPlay : LoopPoints := ⟨0, 2, SqrtQ.ofRat 1⟩

/-- Playback state one sample before the loop end. -/
def srcPlayMid : LoopingSource := ⟨audioPlay, lpPlay, 1, 0, some 1⟩

/-- Four interleaved samples over two channels (downmix witness). -/
def audio8 : AudioData := ⟨[1, 2, 3, 4], 44100, 2⟩

/- Theorems.  First the soundness of the SqrtQ order, then helper lemmas
about each pipeline stage, then one theorem per claim. -/

namespace SqrtQ

theorem toReal_ofRat (q : ℚ) : (ofRat q).toReal = (q : ℝ) := by
  simp [ofRat, toReal]

theorem toReal_sqrtQ (q : ℚ) : (sqrtQ q).toReal = Real.sqrt (q : ℝ) := by
  simp [sqrtQ, toReal]

theorem toReal_mul (a b : SqrtQ) (ha : 0 ≤ a.rad) :
    (a.mul b).toReal = a.toReal * b.toReal := by
  have haR : (0 : ℝ) ≤ (a.rad : ℝ) := by exact_mod_cast ha
  unfold mul toReal
  push_cast
  rw [Real.sqrt_mul haR]
  ring

theorem toReal_sq (a : SqrtQ) (ha : 0 ≤ a.rad) : a.toReal ^ 2 = ((a.sq : ℚ) : ℝ) := by
  have h : Real.sqrt (a.rad : ℝ) ^ 2 = (a.rad : ℝ) := Real.sq_sqrt (by exact_mod_cast ha)
  simp only [toReal, mul_pow, h, sq]
  push_cast
  ring

theorem toReal_pos_iff (a : SqrtQ) (ha : 0 ≤ a.rad) : 0 < a.toReal ↔ a.sgn = 1 := by
  rcases eq_or_lt_of_le ha with hr | hr
  · simp [toReal, sgn, ← hr]
  · have hs : 0 < Real.sqrt (a.rad : ℝ) := Real.sqrt_pos.2 (by exact_mod_cast hr)
    have hnle : ¬ a.rad ≤ 0 := not_le.2 hr
    have hiff : 0 < a.toReal ↔ 0 < a.coef := by
      unfold toReal
      constructor
      · intro h
        by_contra hc
        push_neg at hc
        have hc2 : (a.coef : ℝ) ≤ 0 := by exact_mod_cast hc
        nlinarith
      · intro h
        have h2 : (0 : ℝ) < (a.coef : ℝ) := by exact_mod_cast h
        positivity
    rw [hiff]
    unfold sgn
    rw [if_neg hnle]
    by_cases h1 : a.coef < 0
    · rw [if_pos h1]
      constructor
      · intro h; exact absurd h (by linarith)
      · intro h; exact absurd h (by decide)
    · rw [if_neg h1]
      by_cases h2 : a.coef = 0
      · rw [if_pos h2]
        constructor
        · intro h; exact absurd h2 (ne_of_gt h)
        · intro h; exact absurd h (by decide)
      · rw [if_neg h2]
        exact ⟨fun _ => rfl, fun _ => lt_of_le_of_ne (not_lt.1 h1) (Ne.symm h2)⟩

theorem toReal_neg_iff (a : SqrtQ) (ha : 0 ≤ a.rad) : a.toReal < 0 ↔ a.sgn = -1 := by
  rcases eq_or_lt_of_le ha with hr | hr
  · simp [toReal, sgn, ← hr]
  · have hs : 0 < Real.sqrt (a.rad : ℝ) := Real.sqrt_pos.2 (by exact_mod_cast hr)
    have hnle : ¬ a.rad ≤ 0 := not_le.2 hr
    have hiff : a.toReal < 0 ↔ a.coef < 0 := by
      unfold toReal
      constructor
      · intro h
        by_contra hc
        push_neg at hc
        have hc2 : (0 : ℝ) ≤ (a.coef : ℝ) := by exact_mod_cast hc
        nlinarith
      · intro h
        have h2 : (a.coef : ℝ) < 0 := by exact_mod_cast h
        exact mul_neg_of_neg_of_pos h2 hs
    rw [hiff]
    unfold sgn
    rw [if_neg hnle]
    by_cases h1 : a.coef < 0
    · rw [if_pos h1]
      exact ⟨fun _ => rfl, fun _ => h1⟩
    · rw [if_neg h1]
      by_cases h2 : a.coef = 0
      · rw [if_pos h2]
        constructor
        · intro h; exact absurd h h1
        · intro h; exact absurd h (by decide)
      · rw [if_neg h2]
        constructor
        · intro h; exact absurd h h1
        · intro h; exact absurd h (by decide)

theorem toReal_zero_of_sgn (a : SqrtQ) (ha : 0 ≤ a.rad) (h : a.sgn = 0) : a.toReal = 0 := by
  rcases lt_trichotomy a.toReal 0 with hlt | heq | hgt
  · rw [(toReal_neg_iff a ha).1 hlt] at h; cases h
  · exact heq
  · rw [(toReal_pos_iff a ha).1 hgt] at h; cases h

theorem sgn_trichotomy (a : SqrtQ) : a.sgn = -1 ∨ a.sgn = 0 ∨ a.sgn = 1 := by
  unfold sgn
  split_ifs <;> simp

theorem sq_lt_sq_iff_of_pos {x y : ℝ} (hx : 0 < x) (hy : 0 < y) :
    x ^ 2 < y ^ 2 ↔ x < y := by
  constructor
  · intro h
    by_contra hc
    push_neg at hc
    nlinarith
  · intro h
    nlinarith

/-- Soundness of the decidable order: on nonnegative radicands, blt decides
the strict order of the denoted reals. -/
theorem blt_iff_lt (a b : SqrtQ) (ha : 0 ≤ a.rad) (hb : 0 ≤ b.rad) :
    a.blt b = true ↔ a.toReal < b.toReal := by
  rcases sgn_trichotomy a with hsa | hsa | hsa <;>
    rcases sgn_trichotomy b with hsb | hsb | hsb
  · -- sgn a = -1, sgn b = -1 : compare squares, reversed
    have hxa : a.toReal < 0 := (toReal_neg_iff a ha).2 hsa
    have hxb : b.toReal < 0 := (toReal_neg_iff b hb).2 hsb
    have heq : a.blt b = decide (b.sq < a.sq) := by
      unfold blt
      rw [hsa, hsb, if_neg (by decide), if_neg (by decide), if_neg (by decide),
        if_pos (by decide)]
    rw [heq, decide_eq_true_iff]
    have h2 : (0 : ℝ) < -b.toReal := by linarith
    have h3 : (0 : ℝ) < -a.toReal := by linarith
    have hsq : ((b.sq : ℚ) : ℝ) < ((a.sq : ℚ) : ℝ) ↔ -b.toReal < -a.toReal := by
      rw [← toReal_sq a ha, ← toReal_sq b hb, ← neg_sq a.toReal, ← neg_sq b.toReal]
      exact sq_lt_sq_iff_of_pos h2 h3
    constructor
    · intro h
      have hc : ((b.sq : ℚ) : ℝ) < ((a.sq : ℚ) : ℝ) := by exact_mod_cast h
      linarith [hsq.1 hc]
    · intro h
      have hc : -b.toReal < -a.toReal := by linarith
      exact_mod_cast hsq.2 hc
  · -- sgn a = -1, sgn b = 0
    have hxa : a.toReal < 0 := (toReal_neg_iff a ha).2 hsa
    have hxb : b.toReal = 0 := toReal_zero_of_sgn b hb hsb
    have heq : a.blt b = true := by
      unfold blt
      rw [hsa, hsb, if_pos (by decide)]
    rw [heq]
    constructor
    · intro _; linarith
    · intro _; rfl
  · -- sgn a = -1, sgn b = 1
    have hxa : a.toReal < 0 := (toReal_neg_iff a ha).2 hsa
    have hxb : 0 < b.toReal := (toReal_pos_iff b hb).2 hsb
    have heq : a.blt b = true := by
      unfold blt
      rw [hsa, hsb, if_pos (by decide)]
    rw [heq]
    constructor
    · intro _; linarith
    · intro _; rfl
  · -- sgn a = 0, sgn b = -1
    have hxa : a.toReal = 0 := toReal_zero_of_sgn a ha hsa
    have hxb : b.toReal < 0 := (toReal_neg_iff b hb).2 hsb
    have heq : a.blt b = false := by
      unfold blt
      rw [hsa, hsb, if_neg (by decide), if_pos (by decide)]
    rw [heq]
    constructor
    · intro h; cases h
    · intro h; exact absurd h (by linarith)
  · -- sgn a = 0, sgn b = 0
    have hxa : a.toReal = 0 := toReal_zero_of_sgn a ha hsa
    have hxb : b.toReal = 0 := toReal_zero_of_sgn b hb hsb
    have heq : a.blt b = false := by
      unfold blt
      rw [hsa, hsb, if_neg (by decide), if_neg (by decide), if_neg (by decide),
        if_neg (by decide)]
    rw [heq]
    constructor
    · intro h; cases h
    · intro h; exact absurd h (by rw [hxa, hxb]; exact lt_irrefl 0)
  · -- sgn a = 0, sgn b = 1
    have hxa : a.toReal = 0 := toReal_zero_of_sgn a ha hsa
    have hxb : 0 < b.toReal := (toReal_pos_iff b hb).2 hsb
    have heq : a.blt b = true := by
      unfold blt
      rw [hsa, hsb, if_pos (by decide)]
    rw [heq]
    constructor
    · intro _; linarith
    · intro _; rfl
  · -- sgn a = 1, sgn b = -1
    have hxa : 0 < a.toReal := (toReal_pos_iff a ha).2 hsa
    have hxb : b.toReal < 0 := (toReal_neg_iff b hb).2 hsb
    have heq : a.blt b = false := by
      unfold blt
      rw [hsa, hsb, if_neg (by decide), if_pos (by decide)]
    rw [heq]
    constructor
    · intro h; cases h
    · intro h; exact absurd h (by linarith)
  · -- sgn a = 1, sgn b = 0
    have hxa : 0 < a.toReal := (toReal_pos_iff a ha).2 hsa
    have hxb : b.toReal = 0 := toReal_zero_of_sgn b hb hsb
    have heq : a.blt b = false := by
      unfold blt
      rw [hsa, hsb, if_neg (by decide), if_pos (by decide)]
    rw [heq]
    constructor
    · intro h; cases h
    · intro h; exact absurd h (by linarith)
  · -- sgn a = 1, sgn b = 1 : compare squares
    have hxa : 0 < a.toReal := (toReal_pos_iff a ha).2 hsa
    have hxb : 0 < b.toReal := (toReal_pos_iff b hb).2 hsb
    have heq : a.blt b = decide (a.sq < b.sq) := by
      unfold blt
      rw [hsa, hsb, if_neg (by decide), if_neg (by decide), if_pos (by decide)]
    rw [heq, decide_eq_true_iff]
    have hsq : ((a.sq : ℚ) : ℝ) < ((b.sq : ℚ) : ℝ) ↔ a.toReal < b.toReal := by
      rw [← toReal_sq a ha, ← toReal_sq b hb]
      exact sq_lt_sq_iff_of_pos hxa hxb
    constructor
    · intro h
      exact hsq.1 (by exact_mod_cast h)
    · intro h
      exact_mod_cast hsq.2 h

/-- Converse form used throughout: a false comparison means the real order
goes the other way. -/
theorem le_of_blt_false (a b : SqrtQ) (ha : 0 ≤ a.rad) (hb : 0 ≤ b.rad)
    (h : a.blt b = false) : b.toReal ≤ a.toReal := by
  by_contra hc
  push_neg at hc
  rw [← blt_iff_lt a b ha hb] at hc
  rw [h] at hc
  cases hc

end SqrtQ


/- Concrete evaluation facts, checked by kernel reduction of the full
pipeline. -/

set_option maxRecDepth 1000000 in
theorem run1_eval : run_analysis audio1 settings1 = ⟨some lp1v, some fo1v⟩ := by
  with_unfolding_all rfl

set_option maxRecDepth 1000000 in
theorem run2_eval : run_analysis audio2 settings2 = ⟨some lp2v, none⟩ := by
  with_unfolding_all rfl

set_option maxRecDepth 1000000 in
theorem detect2_eval : detect_loop_fft (mix_to_mono audio2) 1 116 1 = some lp2v := by
  with_unfolding_all rfl

set_option maxRecDepth 1000000 in
theorem fade_eval :
    detect_fade_out (mix_to_mono audioFade) 1 1 settings1 = some ⟨6, 7, SqrtQ.ofRat (4/5)⟩ := by
  with_unfolding_all rfl

set_option maxRecDepth 1000000 in
theorem short_eval : run_analysis audioShort settings2 = ⟨none, none⟩ := by
  with_unfolding_all rfl

/- Helper lemmas on the pipeline stages. -/

theorem detect_loop_fft_none_of_short (mono : List ℚ) (sr e ch : ℕ)
    (h : e < QUERY_DURATION_SEC * sr * 2) : detect_loop_fft mono sr e ch = none := by
  unfold detect_loop_fft
  rw [if_pos h]

theorem loopPass_none_of_short (mono : List ℚ) (sr ch : ℕ) (s : AnalysisSettings)
    (fo : Option FadeOutInfo)
    (h : searchEndIdx mono sr ch s fo < QUERY_DURATION_SEC * sr * 2) :
    loopPass mono sr ch s fo = none := by
  unfold loopPass
  by_cases h10 : searchEndIdx mono sr ch s fo < MIN_LOOP_DURATION_SEC * sr
  · rw [if_pos h10]
  · rw [if_neg h10, detect_loop_fft_none_of_short _ _ _ _ h]

/-- C9: for every input whose searchable region (behind the fade-out onset
minus the buffer, or before trailing silence when no fade-out was detected)
is shorter than twice the 15-second query duration (30 seconds of samples),
loop detection returns None -- even though the orchestrator only enforces a
10-second minimum (MIN_LOOP_DURATION_SEC) before calling it. -/
theorem C9_short_region_no_loop (audio : AudioData) (settings : AnalysisSettings)
    (h : searchEndIdx (mix_to_mono audio) audio.sample_rate audio.channels settings
        (if settings.fade_out_mode = FadeOutMode.None then none
         else detect_fade_out (mix_to_mono audio) audio.sample_rate audio.channels settings)
      < QUERY_DURATION_SEC * audio.sample_rate * 2) :
    (run_analysis audio settings).loop_points = none := by
  unfold run_analysis
  cases hdm : settings.detection_mode <;>
    simp only [hdm, loopPass_none_of_short _ _ _ _ _ h]

/-- C9 witness: audioShort has a 20-sample searchable region (above the
10-sample orchestrator minimum at 1 Hz, below the 30-sample query bound)
and gets no loop points. -/
theorem C9_short_region_no_loop_witness :
    (run_analysis audioShort settings2).loop_points = none :=
  C9_short_region_no_loop audioShort settings2 (by with_unfolding_all decide)

/-- C10: fade_out_mode Only and fade_out_mode Auto produce identical
results (only fade_out_mode = None is ever tested by the orchestrator, so
Only does not suppress loop detection, which is governed by
detection_mode alone). -/
theorem C10_only_eq_auto (audio : AudioData) (s : AnalysisSettings) :
    run_analysis audio { s with fade_out_mode := FadeOutMode.Only } =
      run_analysis audio { s with fade_out_mode := FadeOutMode.Auto } := by
  cases s
  rfl


theorem slice_length (l : List ℚ) (a b : ℕ) :
    (slice l a b).length = min (b - a) (l.length - a) := by
  unfold slice
  simp [List.length_take, List.length_drop]

theorem slice_singleton (l : List ℚ) : ∀ i : ℕ, i < l.length → slice l i (i + 1) = [l.getD i 0] := by
  induction l with
  | nil => intro i hi; cases hi
  | cons x xs ih =>
    intro i hi
    cases i with
    | zero => rfl
    | succ j =>
      have hj : j < xs.length := by simpa using hi
      have := ih j hj
      unfold slice at this ⊢
      simpa using this

theorem mix_to_mono_length (audio : AudioData) :
    (mix_to_mono audio).length = audio.samples.length / audio.channels := by
  unfold mix_to_mono
  by_cases h : audio.channels = 1
  · rw [if_pos h, h, Nat.div_one]
  · rw [if_neg h]
    simp

/-- C8: for every interleaved buffer whose length is a multiple of the
channel count (channels >= 1), downmixing is deterministic (it is a pure
function of its input), the mono length is len / channels, every channel
group selected has exactly channels elements, and each mono sample is the
arithmetic mean (sum divided by channel count) of its group. -/
theorem C8_downmix (audio : AudioData) (hch : 1 ≤ audio.channels)
    (hdvd : audio.samples.length % audio.channels = 0) :
    (mix_to_mono audio).length = audio.samples.length / audio.channels ∧
    (∀ i, i < audio.samples.length / audio.channels →
      (slice audio.samples (i * audio.channels) (i * audio.channels + audio.channels)).length
        = audio.channels) ∧
    (∀ i, i < audio.samples.length / audio.channels →
      (mix_to_mono audio).getD i 0 =
        (slice audio.samples (i * audio.channels) (i * audio.channels + audio.channels)).sum /
          (audio.channels : ℚ)) := by
  obtain ⟨samples, sr, ch⟩ := audio
  simp only at hch hdvd ⊢
  have hgrp : ∀ i, i < samples.length / ch → i * ch + ch ≤ samples.length := by
    intro i hi
    have h1 : i + 1 ≤ samples.length / ch := hi
    have h2 : (i + 1) * ch ≤ samples.length / ch * ch := Nat.mul_le_mul_right ch h1
    have h3 : samples.length / ch * ch ≤ samples.length := Nat.div_mul_le_self _ _
    calc i * ch + ch = (i + 1) * ch := by ring
    _ ≤ samples.length / ch * ch := h2
    _ ≤ samples.length := h3
  refine ⟨mix_to_mono_length ⟨samples, sr, ch⟩, ?_, ?_⟩
  · intro i hi
    rw [slice_length]
    have := hgrp i hi
    omega
  · intro i hi
    by_cases h1 : ch = 1
    · subst h1
      have hi1 : i < samples.length := by simpa using hi
      show samples.getD i 0 = (slice samples (i * 1) (i * 1 + 1)).sum / (1 : ℚ)
      rw [Nat.mul_one, slice_singleton samples i hi1]
      simp
    · simp only [mix_to_mono]
      rw [if_neg h1]
      rw [List.getD_eq_getElem?_getD, List.getElem?_map, List.getElem?_range hi]
      rfl

/-- C8 witness: the two-channel buffer [1, 2, 3, 4] downmixes to two
samples, the first being the mean of its first frame. -/
theorem C8_downmix_witness :
    (mix_to_mono audio8).length = audio8.samples.length / audio8.channels ∧
    (mix_to_mono audio8).getD 0 0 =
      (slice audio8.samples 0 2).sum / (audio8.channels : ℚ) := by
  have h := C8_downmix audio8 (by decide) (by decide)
  refine ⟨h.1, ?_⟩
  have h0 : 0 < audio8.samples.length / audio8.channels := by decide
  have := h.2.2 0 h0
  simpa using this


/-- Single-step characterization of the playback iterator with a bounded
loop count: a yielded step either jumps (incrementing the counter, exactly
when looping is allowed, the advanced cursor reached the loop end, and the
advanced cursor is frame aligned) or advances the cursor by one. -/
theorem next_step (s s2 : LoopingSource) (x : ℚ) (m : ℕ) (hm : s.max_loops = some m)
    (h : s.next = some (x, s2)) :
    s.cursor < s.data.samples.length ∧
    s2.data = s.data ∧ s2.loop_points = s.loop_points ∧ s2.max_loops = s.max_loops ∧
    ((s2.loop_count = s.loop_count + 1 ∧ s2.cursor = s.loop_points.start_sample ∧
        s.loop_count < m ∧ s.loop_points.end_sample ≤ s.cursor + 1 ∧
        (s.cursor + 1) % s.data.channels = 0) ∨
      (s2.loop_count = s.loop_count ∧ s2.cursor = s.cursor + 1 ∧
        ¬(s.loop_count < m ∧ s.loop_points.end_sample ≤ s.cursor + 1 ∧
          (s.cursor + 1) % s.data.channels = 0))) := by
  unfold LoopingSource.next at h
  by_cases hlen : s.data.samples.length ≤ s.cursor
  · rw [if_pos hlen] at h
    cases h
  · rw [if_neg hlen] at h
    simp only [hm] at h
    refine ⟨by omega, ?_⟩
    by_cases hc : s.loop_count < m
    · simp only [decide_eq_true_eq, hc, if_pos (by simp [hc] : (decide (s.loop_count < m)) = true)] at h
      by_cases hend : s.loop_points.end_sample ≤ s.cursor + 1
      · rw [if_pos hend] at h
        by_cases halign : (s.cursor + 1) % s.data.channels = 0
        · rw [if_pos halign] at h
          obtain ⟨hx, hs2⟩ := Prod.mk.injEq .. ▸ (Option.some.inj h)
          subst hs2
          exact ⟨rfl, rfl, hm.symm, Or.inl ⟨rfl, rfl, hc, hend, halign⟩⟩
        · rw [if_neg halign] at h
          obtain ⟨hx, hs2⟩ := Prod.mk.injEq .. ▸ (Option.some.inj h)
          subst hs2
          exact ⟨rfl, rfl, hm.symm, Or.inr ⟨rfl, rfl, by tauto⟩⟩
      · rw [if_neg hend] at h
        obtain ⟨hx, hs2⟩ := Prod.mk.injEq .. ▸ (Option.some.inj h)
        subst hs2
        exact ⟨rfl, rfl, hm.symm, Or.inr ⟨rfl, rfl, by tauto⟩⟩
    · rw [if_neg (by simp [hc] : ¬ (decide (s.loop_count < m)) = true)] at h
      obtain ⟨hx, hs2⟩ := Prod.mk.injEq .. ▸ (Option.some.inj h)
      subst hs2
      exact ⟨rfl, rfl, hm.symm, Or.inr ⟨rfl, rfl, by tauto⟩⟩

/-- The loop counter never exceeds the configured maximum along a run. -/
theorem runN_count_le (m : ℕ) : ∀ (n : ℕ) (s s2 : LoopingSource), s.max_loops = some m →
    s.loop_count ≤ m → LoopingSource.runN n s = some s2 →
    s2.loop_count ≤ m ∧ s2.max_loops = some m := by
  intro n
  induction n with
  | zero =>
    intro s s2 hm hc h
    unfold LoopingSource.runN at h
    cases h
    exact ⟨hc, hm⟩
  | succ n ih =>
    intro s s2 hm hc h
    unfold LoopingSource.runN at h
    cases hnext : s.next with
    | none => rw [hnext] at h; cases h
    | some p =>
      rw [hnext] at h
      obtain ⟨x, s3⟩ := p
      have step := next_step s s3 x m hm hnext
      have hm3 : s3.max_loops = some m := step.2.2.2.1 ▸ hm
      have hc3 : s3.loop_count ≤ m := by
        rcases step.2.2.2.2 with ⟨h1, _, h3, _⟩ | ⟨h1, _⟩
        · omega
        · omega
      exact ih s3 s2 hm3 hc3 h

/-- Termination measure argument: once the measure (remaining loops times
track length plus remaining samples) is below the fuel, the iterator is
exhausted. -/
theorem runN_none_of_measure (m : ℕ) : ∀ (n : ℕ) (s : LoopingSource),
    s.max_loops = some m → s.loop_count ≤ m →
    (m - s.loop_count) * (s.data.samples.length + 1) +
      (s.data.samples.length - s.cursor) < n →
    LoopingSource.runN n s = none := by
  intro n
  induction n with
  | zero => intro s _ _ h; omega
  | succ n ih =>
    intro s hm hc h
    unfold LoopingSource.runN
    cases hnext : s.next with
    | none => rfl
    | some p =>
      obtain ⟨x, s2⟩ := p
      have step := next_step s s2 x m hm hnext
      have hdata : s2.data = s.data := step.2.1
      have hm2 : s2.max_loops = some m := step.2.2.2.1 ▸ hm
      have hcur : s.cursor < s.data.samples.length := step.1
      have hc2 : s2.loop_count ≤ m := by
        rcases step.2.2.2.2 with ⟨h1, _, h3, _⟩ | ⟨h1, _⟩ <;> omega
      apply ih s2 hm2 hc2
      rw [hdata]
      rcases step.2.2.2.2 with ⟨h1, h2, h3, _⟩ | ⟨h1, h2, _⟩
      · -- jump: the loop counter increases
        rw [h1, h2]
        have hsplit : m - s.loop_count = (m - (s.loop_count + 1)) + 1 := by omega
        have hexp : (m - s.loop_count) * (s.data.samples.length + 1) =
            (m - (s.loop_count + 1)) * (s.data.samples.length + 1) +
              (s.data.samples.length + 1) := by
          rw [hsplit, Nat.succ_mul]
        have hb : s.data.samples.length - s.loop_points.start_sample ≤
            s.data.samples.length := Nat.sub_le _ _
        omega
      · -- plain advance: the cursor increases
        rw [h1, h2]
        omega

/-- C7: for a LoopingSource with max_loops = some m, (a) a yielded step
increments the loop counter exactly when the counter is still below m, the
advanced cursor has reached end_sample, and the advanced cursor is frame
aligned (cursor % channels = 0), and any such jump lands on start_sample;
(b) the loop counter never exceeds m (so the jump occurs at most m times
and never once loop_count = m); (c) the iterator terminates after finitely
many samples (at most (m+1)*(len+1)). -/
theorem C7_looping_iterator (data : AudioData) (lp : LoopPoints) (m : ℕ) :
    (∀ (s s2 : LoopingSource) (x : ℚ), s.max_loops = some m → s.next = some (x, s2) →
      ((s2.loop_count = s.loop_count + 1 ↔
        (s.loop_count < m ∧ s.loop_points.end_sample ≤ s.cursor + 1 ∧
          (s.cursor + 1) % s.data.channels = 0)) ∧
       (s2.loop_count = s.loop_count + 1 → s2.cursor = s.loop_points.start_sample))) ∧
    (∀ (n : ℕ) (s2 : LoopingSource),
      LoopingSource.runN n (LoopingSource.new data lp (some m)) = some s2 →
      s2.loop_count ≤ m) ∧
    LoopingSource.runN ((m + 1) * (data.samples.length + 1))
      (LoopingSource.new data lp (some m)) = none := by
  refine ⟨?_, ?_, ?_⟩
  · intro s s2 x hm h
    have step := next_step s s2 x m hm h
    constructor
    · constructor
      · intro hinc
        rcases step.2.2.2.2 with ⟨_, _, h3, h4, h5⟩ | ⟨h1, _⟩
        · exact ⟨h3, h4, h5⟩
        · omega
      · intro hcond
        rcases step.2.2.2.2 with ⟨h1, _⟩ | ⟨_, _, hneg⟩
        · exact h1
        · exact absurd hcond hneg
    · intro hinc
      rcases step.2.2.2.2 with ⟨_, h2, _⟩ | ⟨h1, _⟩
      · exact h2
      · omega
  · intro n s2 h
    exact (runN_count_le m n _ s2 rfl (Nat.zero_le m) h).1
  · apply runN_none_of_measure m _ _ rfl (Nat.zero_le m)
    show (m - 0) * (data.samples.length + 1) + (data.samples.length - 0) <
      (m + 1) * (data.samples.length + 1)
    have : (m + 1) * (data.samples.length + 1) =
        m * (data.samples.length + 1) + (data.samples.length + 1) := by ring
    simp only [Nat.sub_zero]
    omega

/-- C7 witness: on the four-sample track with loop body [0,2) and one
allowed loop, the step at cursor 1 jumps back to 0 with the counter going
to 1, and the iterator is exhausted within 10 samples. -/
theorem C7_looping_iterator_witness :
    LoopingSource.next srcPlayMid = some (2, ⟨audioPlay, lpPlay, 0, 1, some 1⟩) ∧
    (((⟨audioPlay, lpPlay, 0, 1, some 1⟩ : LoopingSource).loop_count =
        srcPlayMid.loop_count + 1) ↔
      (srcPlayMid.loop_count < 1 ∧ srcPlayMid.loop_points.end_sample ≤ srcPlayMid.cursor + 1 ∧
        (srcPlayMid.cursor + 1) % srcPlayMid.data.channels = 0)) ∧
    LoopingSource.runN ((1 + 1) * (audioPlay.samples.length + 1))
      (LoopingSource.new audioPlay lpPlay (some 1)) = none := by
  have hnext : LoopingSource.next srcPlayMid = some (2, ⟨audioPlay, lpPlay, 0, 1, some 1⟩) := by
    with_unfolding_all rfl
  have h := C7_looping_iterator audioPlay lpPlay 1
  exact ⟨hnext, (h.1 srcPlayMid _ 2 rfl hnext).1, h.2.2⟩


theorem find_effective_end_le (mono : List ℚ) (th : ℚ) :
    find_effective_end mono th ≤ mono.length := by
  unfold find_effective_end
  cases hf : (List.range mono.length).reverse.find?
      (fun i => decide (th < |mono.getD i 0|)) with
  | none => exact le_refl _
  | some i =>
    have hmem : i ∈ (List.range mono.length).reverse := List.mem_of_find?_eq_some hf
    rw [List.mem_reverse, List.mem_range] at hmem
    show i + 1 ≤ mono.length
    omega

theorem list_sum_sq_nonneg (l : List ℚ) : 0 ≤ (l.map (fun x => x * x)).sum := by
  apply List.sum_nonneg
  intro x hx
  obtain ⟨y, _, hy⟩ := List.mem_map.1 hx
  rw [← hy]
  exact mul_self_nonneg y

theorem calculate_rms_rad_nonneg (data : List ℚ) : 0 ≤ (calculate_rms data).rad := by
  unfold calculate_rms SqrtQ.sqrtQ
  have h1 : 0 ≤ (data.map (fun x => x * x)).sum := list_sum_sq_nonneg data
  have h2 : (0 : ℚ) < (data.length : ℚ) + EPS := by
    have : (0 : ℚ) ≤ (data.length : ℚ) := Nat.cast_nonneg _
    unfold EPS
    linarith
  exact div_nonneg h1 h2.le

theorem fadeScan_mem (mono : List ℚ) (ss w : ℕ) : ∀ (fuel curr : ℕ)
    (p : SqrtQ × ℕ), p ∈ fadeScan mono ss w fuel curr →
    p.1 = calculate_rms (slice mono p.2 (p.2 + w)) ∧ p.2 + w ≤ curr := by
  intro fuel
  induction fuel with
  | zero => intro curr p hp; cases hp
  | succ fuel ih =>
    intro curr p hp
    unfold fadeScan at hp
    by_cases hc : ss + w ≤ curr ∧ w ≤ curr
    · rw [if_pos hc] at hp
      rcases List.mem_cons.1 hp with hhead | htail
      · subst hhead
        exact ⟨rfl, by omega⟩
      · have := ih (curr - w) p htail
        exact ⟨this.1, by omega⟩
    · rw [if_neg hc] at hp
      cases hp

theorem getD_prop {α : Type} (P : α → Prop) (l : List α) (i : ℕ) (d : α)
    (hl : ∀ x ∈ l, P x) (hd : P d) : P (l.getD i d) := by
  rw [List.getD_eq_getElem?_getD]
  cases hx : l[i]? with
  | none => exact hd
  | some x =>
    have : x ∈ l := List.getElem?_mem hx
    simpa [hx] using hl x this

/-- Shape of a successful fade-out detection: the returned record is built
from the onset window selected by the backward scan, and every gate of the
source was passed. -/
theorem detect_fade_out_eq_some (mono : List ℚ) (sr ch : ℕ) (s : AnalysisSettings)
    (fo : FadeOutInfo) (h : detect_fade_out mono sr ch s = some fo) :
    let E := find_effective_end mono (s.fade_out_threshold_volume * (1 / 2))
    let w := msToSamples s.fade_out_window_size_ms sr
    let hist := fadeScan mono (E - sr * 60) w (E + 1) E
    let fs := scanFade (hist.map Prod.fst) (hist.length - 1) 0 0
    let onset := (hist.getD fs (SqrtQ.ofRat 0, 0)).2
    fo = ⟨onset * ch, (E - onset) * ch, SqrtQ.ofRat (4 / 5)⟩ ∧
    5 * sr ≤ E ∧ 1 ≤ w ∧ w < E ∧ onset + w ≤ E ∧
    msToSamples s.min_fade_out_duration_ms sr ≤ E - onset ∧
    SqrtQ.blt (hist.getD fs (SqrtQ.ofRat 0, 0)).1
      (SqrtQ.ofRat s.fade_out_threshold_volume) = false ∧
    SqrtQ.blt (hist.getD fs (SqrtQ.ofRat 0, 0)).1
      (((hist.getD 0 (SqrtQ.ofRat 0, 0)).1).mul (SqrtQ.ofRat 2)) = false ∧
    0 ≤ ((hist.getD fs (SqrtQ.ofRat 0, 0)).1).rad ∧
    0 ≤ ((hist.getD 0 (SqrtQ.ofRat 0, 0)).1).rad := by
  intro E w hist fs onset
  have hrad : ∀ i : ℕ, 0 ≤ ((hist.getD i (SqrtQ.ofRat 0, 0)).1).rad := by
    intro i
    refine getD_prop (fun p => 0 ≤ p.1.rad) hist i _ ?_ ?_
    · intro p hp
      rw [(fadeScan_mem mono (E - sr * 60) w (E + 1) E p hp).1]
      exact calculate_rms_rad_nonneg _
    · norm_num [SqrtQ.ofRat]
  simp only [detect_fade_out] at h
  by_cases h5 : E < 5 * sr
  · rw [if_pos h5] at h; cases h
  rw [if_neg h5] at h
  by_cases hw : w = 0 ∨ E ≤ w
  · rw [if_pos hw] at h; cases h
  rw [if_neg hw] at h
  push_neg at hw
  by_cases hl : hist.length < 5
  · rw [if_pos hl] at h; cases h
  rw [if_neg hl] at h
  by_cases hd : E - onset < msToSamples s.min_fade_out_duration_ms sr
  · rw [if_pos hd] at h; cases h
  rw [if_neg hd] at h
  by_cases hb1 : SqrtQ.blt (hist.getD fs (SqrtQ.ofRat 0, 0)).1
      (SqrtQ.ofRat s.fade_out_threshold_volume) = true
  · rw [if_pos hb1] at h; cases h
  rw [if_neg hb1] at h
  by_cases hb2 : SqrtQ.blt (hist.getD fs (SqrtQ.ofRat 0, 0)).1
      (((hist.getD 0 (SqrtQ.ofRat 0, 0)).1).mul (SqrtQ.ofRat 2)) = true
  · rw [if_pos hb2] at h; cases h
  rw [if_neg hb2] at h
  have honset : onset + w ≤ E := by
    refine getD_prop (fun p => p.2 + w ≤ E) hist fs _ ?_ ?_
    · intro p hp
      exact (fadeScan_mem mono (E - sr * 60) w (E + 1) E p hp).2
    · show 0 + w ≤ E
      omega
  have hfo := (Option.some.inj h).symm
  refine ⟨hfo, by omega, by omega, by omega, honset, by omega,
    Bool.not_eq_true _ ▸ hb1, Bool.not_eq_true _ ▸ hb2, hrad fs, hrad 0⟩


/-- C4: detect_fade_out returns Some only if the effective audible content
is at least 5 seconds of samples, the fade duration (effective end minus
onset) is at least min_fade_out_duration_ms converted to samples, the
onset-window RMS is at least fade_out_threshold_volume, and the
onset-window RMS is at least twice the RMS of the final window; every
other path returns None (necessary conditions of the Some result). -/
theorem C4_fade_out_gates (mono : List ℚ) (sr ch : ℕ) (s : AnalysisSettings)
    (fo : FadeOutInfo) (h : detect_fade_out mono sr ch s = some fo) :
    let E := find_effective_end mono (s.fade_out_threshold_volume * (1 / 2))
    let w := msToSamples s.fade_out_window_size_ms sr
    let hist := fadeScan mono (E - sr * 60) w (E + 1) E
    let fs := scanFade (hist.map Prod.fst) (hist.length - 1) 0 0
    let onset := (hist.getD fs (SqrtQ.ofRat 0, 0)).2
    5 * sr ≤ E ∧
    fo.start_sample = onset * ch ∧
    fo.duration_samples = (E - onset) * ch ∧
    msToSamples s.min_fade_out_duration_ms sr ≤ E - onset ∧
    (s.fade_out_threshold_volume : ℝ) ≤ ((hist.getD fs (SqrtQ.ofRat 0, 0)).1).toReal ∧
    2 * ((hist.getD 0 (SqrtQ.ofRat 0, 0)).1).toReal ≤
      ((hist.getD fs (SqrtQ.ofRat 0, 0)).1).toReal := by
  intro E w hist fs onset
  obtain ⟨hfo, h5, hw1, hwE, honset, hdur, hb1, hb2, hr1, hr0⟩ :=
    detect_fade_out_eq_some mono sr ch s fo h
  refine ⟨h5, by rw [hfo], by rw [hfo], hdur, ?_, ?_⟩
  · have hth := SqrtQ.le_of_blt_false _ _ hr1 (by norm_num [SqrtQ.ofRat]) hb1
    rwa [SqrtQ.toReal_ofRat] at hth
  · have hbrad : 0 ≤ (((hist.getD 0 (SqrtQ.ofRat 0, 0)).1).mul (SqrtQ.ofRat 2)).rad := by
      show 0 ≤ ((hist.getD 0 (SqrtQ.ofRat 0, 0)).1).rad * (SqrtQ.ofRat 2).rad
      rw [show (SqrtQ.ofRat 2).rad = 1 from rfl, mul_one]
      exact hr0
    have h2 := SqrtQ.le_of_blt_false _ _ hr1 hbrad hb2
    rw [SqrtQ.toReal_mul _ _ hr0, SqrtQ.toReal_ofRat] at h2
    push_cast at h2 ⊢
    linarith

/-- C4 witness: the 13-sample fading tone produces a fade-out with onset 6
and duration 7, and every gate holds there. -/
theorem C4_fade_out_gates_witness :
    detect_fade_out (mix_to_mono audioFade) 1 1 settings1 = some ⟨6, 7, SqrtQ.ofRat (4/5)⟩ ∧
    (let E := find_effective_end (mix_to_mono audioFade)
      (settings1.fade_out_threshold_volume * (1 / 2))
     let w := msToSamples settings1.fade_out_window_size_ms 1
     let hist := fadeScan (mix_to_mono audioFade) (E - 1 * 60) w (E + 1) E
     let fs := scanFade (hist.map Prod.fst) (hist.length - 1) 0 0
     let onset := (hist.getD fs (SqrtQ.ofRat 0, 0)).2
     5 * 1 ≤ E ∧
     (⟨6, 7, SqrtQ.ofRat (4/5)⟩ : FadeOutInfo).start_sample = onset * 1 ∧
     (⟨6, 7, SqrtQ.ofRat (4/5)⟩ : FadeOutInfo).duration_samples = (E - onset) * 1 ∧
     msToSamples settings1.min_fade_out_duration_ms 1 ≤ E - onset ∧
     (settings1.fade_out_threshold_volume : ℝ) ≤
       ((hist.getD fs (SqrtQ.ofRat 0, 0)).1).toReal ∧
     2 * ((hist.getD 0 (SqrtQ.ofRat 0, 0)).1).toReal ≤
       ((hist.getD fs (SqrtQ.ofRat 0, 0)).1).toReal) :=
  ⟨fade_eval, C4_fade_out_gates (mix_to_mono audioFade) 1 1 settings1 _ fade_eval⟩


theorem foldl_invariant {α β : Type} (P : β → Prop) (f : β → α → β) :
    ∀ (l : List α) (init : β), P init → (∀ b a, a ∈ l → P b → P (f b a)) →
    P (l.foldl f init) := by
  intro l
  induction l with
  | nil => intro init h0 _; exact h0
  | cons x xs ih =>
    intro init h0 hstep
    exact ih (f init x) (hstep init x (List.mem_cons_self x xs) h0)
      (fun b a ha hb => hstep b a (List.mem_cons_of_mem x ha) hb)

theorem fineStep_eq (query mono : List ℚ) (qmean : ℚ) (qdenom : SqrtQ) (sstart : ℕ)
    (acc : ℕ × SqrtQ) (i : ℕ) :
    fineStep query mono qmean qdenom sstart acc i =
      if SqrtQ.blt (SqrtQ.sqrtQ (centeredSumSq (slice mono i (i + query.length))
          ((slice mono i (i + query.length)).sum / (query.length : ℚ)))) (SqrtQ.ofRat EPS)
      then acc
      else if SqrtQ.blt acc.2 (nccAt query mono qmean qdenom i)
      then (i - sstart, nccAt query mono qmean qdenom i) else acc := rfl

/-- Every possible outcome of the fine matcher: one of the two degenerate
early returns, the untouched initial accumulator, or the correlation of an
offset i inside the scanned window. -/
theorem fine_shape (query mono : List ℚ) (a b : ℕ) :
    find_best_match_ncc_fine query mono a b = (0, SqrtQ.ofRat 0) ∨
    find_best_match_ncc_fine query mono a b = (0, SqrtQ.ofRat (-1)) ∨
    ∃ i, a ≤ i ∧ i < min b (mono.length - query.length) ∧
      find_best_match_ncc_fine query mono a b =
        (i - a, nccAt query mono (query.sum / (query.length : ℚ))
          (SqrtQ.sqrtQ (centeredSumSq query (query.sum / (query.length : ℚ)))) i) := by
  unfold find_best_match_ncc_fine
  by_cases h1 : SqrtQ.blt (SqrtQ.sqrtQ (centeredSumSq query
      (query.sum / (query.length : ℚ)))) (SqrtQ.ofRat EPS) = true
  · rw [if_pos h1]
    exact Or.inl rfl
  rw [if_neg h1]
  by_cases h2 : min b (mono.length - query.length) < a
  · rw [if_pos h2]
    exact Or.inl rfl
  rw [if_neg h2]
  push_neg at h2
  have hinv := foldl_invariant
    (fun acc : ℕ × SqrtQ => acc = (0, SqrtQ.ofRat (-1)) ∨
      ∃ i, a ≤ i ∧ i < min b (mono.length - query.length) ∧
        acc = (i - a, nccAt query mono (query.sum / (query.length : ℚ))
          (SqrtQ.sqrtQ (centeredSumSq query (query.sum / (query.length : ℚ)))) i))
    (fineStep query mono (query.sum / (query.length : ℚ))
      (SqrtQ.sqrtQ (centeredSumSq query (query.sum / (query.length : ℚ)))) a)
    (List.range' a (min b (mono.length - query.length) - a))
    (0, SqrtQ.ofRat (-1)) (Or.inl rfl) ?step
  · rcases hinv with hl | hr
    · exact Or.inr (Or.inl hl)
    · exact Or.inr (Or.inr hr)
  case step =>
    intro acc i hi hacc
    have hibound : a ≤ i ∧ i < min b (mono.length - query.length) := by
      rw [List.mem_range'_1] at hi
      omega
    rw [fineStep_eq]
    by_cases hg : SqrtQ.blt (SqrtQ.sqrtQ (centeredSumSq (slice mono i (i + query.length))
        ((slice mono i (i + query.length)).sum / (query.length : ℚ)))) (SqrtQ.ofRat EPS) = true
    · rw [if_pos hg]; exact hacc
    rw [if_neg hg]
    by_cases hup : SqrtQ.blt acc.2 (nccAt query mono (query.sum / (query.length : ℚ))
        (SqrtQ.sqrtQ (centeredSumSq query (query.sum / (query.length : ℚ)))) i) = true
    · rw [if_pos hup]
      exact Or.inr ⟨i, hibound.1, hibound.2, rfl⟩
    · rw [if_neg hup]; exact hacc

theorem centeredSumSq_nonneg (l : List ℚ) (m : ℚ) : 0 ≤ centeredSumSq l m := by
  unfold centeredSumSq
  apply List.sum_nonneg
  intro x hx
  obtain ⟨y, _, hy⟩ := List.mem_map.1 hx
  rw [← hy]
  positivity

theorem nccAt_rad_nonneg (query mono : List ℚ) (qmean : ℚ) (qdenom : SqrtQ) (i : ℕ)
    (h : 0 ≤ qdenom.rad) : 0 ≤ (nccAt query mono qmean qdenom i).rad := by
  show 0 ≤ 1 * (qdenom.rad * centeredSumSq (slice mono i (i + query.length))
    ((slice mono i (i + query.length)).sum / (query.length : ℚ)))
  have := centeredSumSq_nonneg (slice mono i (i + query.length))
    ((slice mono i (i + query.length)).sum / (query.length : ℚ))
  positivity

theorem fine_rad_nonneg (query mono : List ℚ) (a b : ℕ) :
    0 ≤ (find_best_match_ncc_fine query mono a b).2.rad := by
  rcases fine_shape query mono a b with h | h | ⟨i, _, _, h⟩ <;> rw [h]
  · norm_num [SqrtQ.ofRat]
  · norm_num [SqrtQ.ofRat]
  · exact nccAt_rad_nonneg query mono _ _ i
      (centeredSumSq_nonneg query (query.sum / (query.length : ℚ)))

theorem zipWith_mul_sum_eq (a : List ℚ) : ∀ b : List ℚ,
    (List.zipWith (fun x y => x * y) a b).sum =
      ∑ i ∈ Finset.range (min a.length b.length), a.getD i 0 * b.getD i 0 := by
  induction a with
  | nil => intro b; simp
  | cons x xs ih =>
    intro b
    cases b with
    | nil => simp
    | cons y ys =>
      simp only [List.zipWith_cons_cons, List.sum_cons, List.length_cons]
      rw [ih ys, show min (xs.length + 1) (ys.length + 1) = min xs.length ys.length + 1
        from by omega, Finset.sum_range_succ']
      simp [List.getD_cons_succ, List.getD_cons_zero, add_comm]

theorem map_sq_sum_eq (a : List ℚ) :
    (a.map (fun x => x ^ 2)).sum = ∑ i ∈ Finset.range a.length, a.getD i 0 ^ 2 := by
  induction a with
  | nil => simp
  | cons x xs ih =>
    simp only [List.map_cons, List.sum_cons, List.length_cons]
    rw [ih, Finset.sum_range_succ']
    simp [List.getD_cons_succ, List.getD_cons_zero, add_comm]

/-- Cauchy-Schwarz for the zipped product of two rational lists. -/
theorem list_cauchy_schwarz (a b : List ℚ) :
    (List.zipWith (fun x y => x * y) a b).sum ^ 2 ≤
      (a.map (fun x => x ^ 2)).sum * (b.map (fun x => x ^ 2)).sum := by
  rw [zipWith_mul_sum_eq, map_sq_sum_eq, map_sq_sum_eq]
  have hcs := Finset.sum_mul_sq_le_sq_mul_sq (Finset.range (min a.length b.length))
    (fun i => a.getD i 0) (fun i => b.getD i 0)
  have ha : ∑ i ∈ Finset.range (min a.length b.length), a.getD i 0 ^ 2 ≤
      ∑ i ∈ Finset.range a.length, a.getD i 0 ^ 2 := by
    apply Finset.sum_le_sum_of_subset_of_nonneg
    · exact Finset.range_subset.2 (by omega)
    · intro i _ _; positivity
  have hb : ∑ i ∈ Finset.range (min a.length b.length), b.getD i 0 ^ 2 ≤
      ∑ i ∈ Finset.range b.length, b.getD i 0 ^ 2 := by
    apply Finset.sum_le_sum_of_subset_of_nonneg
    · exact Finset.range_subset.2 (by omega)
    · intro i _ _; positivity
  have hbn : (0 : ℚ) ≤ ∑ i ∈ Finset.range (min a.length b.length), b.getD i 0 ^ 2 := by
    apply Finset.sum_nonneg; intro i _; positivity
  have han : (0 : ℚ) ≤ ∑ i ∈ Finset.range a.length, a.getD i 0 ^ 2 := by
    apply Finset.sum_nonneg; intro i _; positivity
  exact hcs.trans (mul_le_mul ha hb hbn han)

theorem nccNumer_sq_le (query candidate : List ℚ) (qmean cmean : ℚ) :
    nccNumer query candidate qmean cmean ^ 2 ≤
      centeredSumSq query qmean * centeredSumSq candidate cmean := by
  unfold nccNumer centeredSumSq
  have h1 : List.zipWith (fun q c => (q - qmean) * (c - cmean)) query candidate =
      List.zipWith (fun x y => x * y) (query.map (fun q => q - qmean))
        (candidate.map (fun c => c - cmean)) := by
    rw [List.zipWith_map]
  have h2 := list_cauchy_schwarz (query.map (fun q => q - qmean))
    (candidate.map (fun c => c - cmean))
  rw [List.map_map, List.map_map] at h2
  rw [h1]
  exact h2

/-- The fine-pass correlation denotes a real in [-1, 1] (Cauchy-Schwarz). -/
theorem nccAt_toReal_bound (query mono : List ℚ) (qmean : ℚ) (i : ℕ) :
    -1 ≤ (nccAt query mono qmean (SqrtQ.sqrtQ (centeredSumSq query qmean)) i).toReal ∧
    (nccAt query mono qmean (SqrtQ.sqrtQ (centeredSumSq query qmean)) i).toReal ≤ 1 := by
  have hA := centeredSumSq_nonneg query qmean
  have hB := centeredSumSq_nonneg (slice mono i (i + query.length))
    ((slice mono i (i + query.length)).sum / (query.length : ℚ))
  have hval : nccAt query mono qmean (SqrtQ.sqrtQ (centeredSumSq query qmean)) i =
      ⟨nccNumer query (slice mono i (i + query.length)) qmean
          ((slice mono i (i + query.length)).sum / (query.length : ℚ)) /
        (centeredSumSq query qmean * centeredSumSq (slice mono i (i + query.length))
          ((slice mono i (i + query.length)).sum / (query.length : ℚ))),
        centeredSumSq query qmean * centeredSumSq (slice mono i (i + query.length))
          ((slice mono i (i + query.length)).sum / (query.length : ℚ))⟩ := by
    unfold nccAt SqrtQ.div SqrtQ.mul SqrtQ.ofRat SqrtQ.sqrtQ
    simp
  set N := nccNumer query (slice mono i (i + query.length)) qmean
    ((slice mono i (i + query.length)).sum / (query.length : ℚ)) with hN
  set A := centeredSumSq query qmean with hA2
  set B := centeredSumSq (slice mono i (i + query.length))
    ((slice mono i (i + query.length)).sum / (query.length : ℚ)) with hB2
  have hCS : N ^ 2 ≤ A * B := nccNumer_sq_le query _ qmean _
  rw [hval]
  unfold SqrtQ.toReal
  by_cases hz : A * B = 0
  · rw [hz]
    norm_num
  · have hpos : (0 : ℚ) < A * B := lt_of_le_of_ne (mul_nonneg hA hB) (Ne.symm hz)
    have hposR : (0 : ℝ) < ((A * B : ℚ) : ℝ) := by exact_mod_cast hpos
    have hcsR : ((N : ℚ) : ℝ) ^ 2 ≤ ((A * B : ℚ) : ℝ) := by
      have : ((N ^ 2 : ℚ) : ℝ) ≤ ((A * B : ℚ) : ℝ) := by exact_mod_cast hCS
      push_cast at this ⊢
      linarith
    have hsq : (((N / (A * B) : ℚ) : ℝ) * Real.sqrt ((A * B : ℚ) : ℝ)) ^ 2 ≤ 1 := by
      have hsqrt : Real.sqrt ((A * B : ℚ) : ℝ) ^ 2 = ((A * B : ℚ) : ℝ) :=
        Real.sq_sqrt hposR.le
      have hcast : ((N / (A * B) : ℚ) : ℝ) = ((N : ℚ) : ℝ) / ((A * B : ℚ) : ℝ) := by
        push_cast
        ring
      rw [mul_pow, hsqrt, hcast, div_pow]
      rw [div_mul_eq_mul_div, div_le_one (by positivity)]
      calc ((N : ℚ) : ℝ) ^ 2 * ((A * B : ℚ) : ℝ) ≤ ((A * B : ℚ) : ℝ) * ((A * B : ℚ) : ℝ) := by
            apply mul_le_mul_of_nonneg_right hcsR hposR.le
        _ = ((A * B : ℚ) : ℝ) ^ 2 := by ring
    have habs := abs_le.1 ((sq_le_one_iff_abs_le_one _).1 hsq)
    exact habs

theorem fine_toReal_bound (query mono : List ℚ) (a b : ℕ) :
    -1 ≤ (find_best_match_ncc_fine query mono a b).2.toReal ∧
    (find_best_match_ncc_fine query mono a b).2.toReal ≤ 1 := by
  rcases fine_shape query mono a b with h | h | ⟨i, _, _, h⟩ <;> rw [h]
  · rw [show ((0, SqrtQ.ofRat 0) : ℕ × SqrtQ).2 = SqrtQ.ofRat 0 from rfl, SqrtQ.toReal_ofRat]
    norm_num
  · rw [show ((0, SqrtQ.ofRat (-1)) : ℕ × SqrtQ).2 = SqrtQ.ofRat (-1) from rfl,
      SqrtQ.toReal_ofRat]
    norm_num
  · exact nccAt_toReal_bound query mono (query.sum / (query.length : ℚ)) i


theorem blt_zero_negone : SqrtQ.blt (SqrtQ.ofRat 0) (SqrtQ.ofRat (-1)) = false := by
  with_unfolding_all rfl

theorem blt_zero_threshold : SqrtQ.blt (SqrtQ.ofRat 0) (SqrtQ.ofRat (3/10)) = true := by
  with_unfolding_all rfl

theorem blt_negone_threshold : SqrtQ.blt (SqrtQ.ofRat (-1)) (SqrtQ.ofRat (3/10)) = true := by
  with_unfolding_all rfl

/-- A successful coarse pass always reports a lag strictly below the
self-match guard search_limit = n - (m + 100). -/
theorem coarse_some_lag_lt (signal query : List ℚ) (lag : ℕ)
    (h : find_best_lag_fft signal query = some lag) :
    lag < signal.length - (query.length + 100) := by
  unfold find_best_lag_fft at h
  by_cases hnm : signal.length < query.length
  · rw [if_pos hnm] at h
    cases h
  rw [if_neg hnm] at h
  have hinv := foldl_invariant
    (fun acc : ℕ × SqrtQ => SqrtQ.blt (SqrtQ.ofRat 0) acc.2 = false ∨
      acc.1 < signal.length - (query.length + 100))
    (coarseStep signal query (compute_moving_sum_squares signal query.length)
      (SqrtQ.sqrtQ ((query.map (fun x => x * x)).sum)))
    (List.range (signal.length - (query.length + 100)))
    (0, SqrtQ.ofRat (-1)) (Or.inl blt_zero_negone) ?step
  · by_cases hpos : SqrtQ.blt (SqrtQ.ofRat 0)
        ((List.range (signal.length - (query.length + 100))).foldl
          (coarseStep signal query (compute_moving_sum_squares signal query.length)
            (SqrtQ.sqrtQ ((query.map (fun x => x * x)).sum))) (0, SqrtQ.ofRat (-1))).2 = true
    · rw [if_pos hpos] at h
      have hl := Option.some.inj h
      rcases hinv with hfalse | hlt
      · rw [hpos] at hfalse
        cases hfalse
      · omega
    · rw [if_neg hpos] at h
      cases h
  case step =>
    intro acc l hl hacc
    have hlb : l < signal.length - (query.length + 100) := List.mem_range.1 hl
    unfold coarseStep
    by_cases h1 : l < (compute_moving_sum_squares signal query.length).length
    · rw [if_pos h1]
      by_cases h2 : SqrtQ.blt (SqrtQ.ofRat EPS)
          ((SqrtQ.sqrtQ ((compute_moving_sum_squares signal query.length).getD l 0)).mul
            (SqrtQ.sqrtQ ((query.map (fun x => x * x)).sum))) = true
      · rw [if_pos h2]
        by_cases h3 : SqrtQ.blt acc.2 (SqrtQ.div (SqrtQ.ofRat (dotAt signal query l))
            ((SqrtQ.sqrtQ ((compute_moving_sum_squares signal query.length).getD l 0)).mul
              (SqrtQ.sqrtQ ((query.map (fun x => x * x)).sum)))) = true
        · rw [if_pos h3]
          exact Or.inr hlb
        · rw [if_neg h3]
          exact hacc
      · rw [if_neg h2]
        exact hacc
    · rw [if_neg h1]
      exact hacc

theorem downsample_length (data : List ℚ) (step : ℕ) :
    (downsample data step).length =
      if step ≤ 1 then data.length else (data.length + step - 1) / step := by
  unfold downsample
  by_cases h : step ≤ 1
  · rw [if_pos h, if_pos h]
  · rw [if_neg h, if_neg h]
    simp

/-- The fine search window projected back from any admissible coarse lag
ends strictly before the searchable region does: its upper bound is the
estimated lag plus the two-second radius, and the self-match guard on the
coarse lag keeps that below e. -/
theorem refine_window_lt (mono : List ℚ) (sr e lag : ℕ)
    (hq : QUERY_DURATION_SEC * sr * 2 ≤ e) (hlen : e ≤ mono.length)
    (hlag : lag < (downsample (slice mono 0 e) (coarseF sr)).length -
      ((downsample (queryRaw mono sr e) (coarseF sr)).length + 100)) :
    lag * coarseF sr + refineRadius sr < e := by
  have hsig : (slice mono 0 e).length = e := by
    rw [slice_length]
    omega
  have hqlen : (queryRaw mono sr e).length = QUERY_DURATION_SEC * sr := by
    unfold queryRaw
    rw [slice_length]
    unfold QUERY_DURATION_SEC at hq ⊢
    omega
  have hrr : refineRadius sr ≤ 2 * sr := by
    unfold refineRadius
    have := Nat.mod_le (sr * 2) (2 ^ 32)
    omega
  rw [downsample_length, downsample_length, hsig, hqlen] at hlag
  unfold QUERY_DURATION_SEC at hq hlag
  by_cases hf : coarseF sr ≤ 1
  · rw [if_pos hf, if_pos hf] at hlag
    have hf1 : coarseF sr = 1 := by
      unfold coarseF at hf ⊢
      omega
    rw [hf1]
    omega
  · rw [if_neg hf, if_neg hf] at hlag
    push_neg at hf
    have hf2 : 2 ≤ coarseF sr := hf
    have hsr8 : 8000 ≤ sr := by
      unfold coarseF COARSE_SAMPLE_RATE at hf2
      omega
    have hnsplit : (e + coarseF sr - 1) / coarseF sr = (e - 1) / coarseF sr + 1 := by
      rw [show e + coarseF sr - 1 = (e - 1) + coarseF sr from by omega,
        Nat.add_div_right _ (by omega)]
    have hmsplit : (15 * sr + coarseF sr - 1) / coarseF sr =
        (15 * sr - 1) / coarseF sr + 1 := by
      rw [show 15 * sr + coarseF sr - 1 = (15 * sr - 1) + coarseF sr from by omega,
        Nat.add_div_right _ (by omega)]
    rw [hnsplit, hmsplit] at hlag
    have hstep : lag + ((15 * sr - 1) / coarseF sr + 1) + 100 ≤ (e - 1) / coarseF sr + 1 := by
      omega
    have hmul := Nat.mul_le_mul_right (coarseF sr) hstep
    have hexp : (lag + ((15 * sr - 1) / coarseF sr + 1) + 100) * coarseF sr =
        lag * coarseF sr + (15 * sr - 1) / coarseF sr * coarseF sr + 101 * coarseF sr := by
      ring
    have hnf : ((e - 1) / coarseF sr + 1) * coarseF sr ≤ (e - 1) + coarseF sr := by
      have hd := Nat.div_mul_le_self (e - 1) (coarseF sr)
      rw [Nat.add_mul, one_mul]
      omega
    have hqf : 15 * sr - 1 ≤ (15 * sr - 1) / coarseF sr * coarseF sr + (coarseF sr - 1) := by
      have hmod : (15 * sr - 1) % coarseF sr < coarseF sr := Nat.mod_lt _ (by omega)
      have heq := Nat.mod_add_div (15 * sr - 1) (coarseF sr)
      have hcomm : coarseF sr * ((15 * sr - 1) / coarseF sr) =
          (15 * sr - 1) / coarseF sr * coarseF sr := Nat.mul_comm _ _
      omega
    have h101 : 202 ≤ 101 * coarseF sr := by omega
    omega


/-- Shape of a successful loop detection: the guards passed, the coarse
pass returned a lag, and the result is assembled from the fine pass over
the projected window, converted to interleaved indices. -/
theorem detect_loop_shape (mono : List ℚ) (sr e ch : ℕ) (lp : LoopPoints)
    (h : detect_loop_fft mono sr e ch = some lp) :
    QUERY_DURATION_SEC * sr * 2 ≤ e ∧
    ∃ lag, find_best_lag_fft (downsample (slice mono 0 e) (coarseF sr))
        (downsample (queryRaw mono sr e) (coarseF sr)) = some lag ∧
      refineStart sr lag < refineEnd sr lag e ∧
      SqrtQ.blt (find_best_match_ncc_fine (queryRaw mono sr e) mono
        (refineStart sr lag) (refineEnd sr lag e)).2 (SqrtQ.ofRat (3 / 10)) = false ∧
      lp = ⟨(refineStart sr lag + (find_best_match_ncc_fine (queryRaw mono sr e) mono
            (refineStart sr lag) (refineEnd sr lag e)).1) * ch,
          e * ch,
          (find_best_match_ncc_fine (queryRaw mono sr e) mono (refineStart sr lag)
            (refineEnd sr lag e)).2⟩ := by
  simp only [refineStart, refineEnd, refineRadius, coarseF, queryRaw]
  simp only [detect_loop_fft] at h
  by_cases h1 : e < QUERY_DURATION_SEC * sr * 2
  · rw [if_pos h1] at h
    cases h
  rw [if_neg h1] at h
  refine ⟨by omega, ?_⟩
  cases hlag : find_best_lag_fft
      (downsample (slice mono 0 e) (max (sr / COARSE_SAMPLE_RATE) 1))
      (downsample (slice mono (e - QUERY_DURATION_SEC * sr) e)
        (max (sr / COARSE_SAMPLE_RATE) 1)) with
  | none =>
    rw [hlag] at h
    cases h
  | some lag =>
    rw [hlag] at h
    dsimp only at h
    by_cases h2 : min (lag * max (sr / COARSE_SAMPLE_RATE) 1 + sr * 2 % 2 ^ 32)
        (wrapSub64 (e - QUERY_DURATION_SEC * sr) 1000) ≤
        lag * max (sr / COARSE_SAMPLE_RATE) 1 - sr * 2 % 2 ^ 32
    · rw [if_pos h2] at h
      cases h
    rw [if_neg h2] at h
    by_cases h3 : SqrtQ.blt (find_best_match_ncc_fine
        (slice mono (e - QUERY_DURATION_SEC * sr) e) mono
        (lag * max (sr / COARSE_SAMPLE_RATE) 1 - sr * 2 % 2 ^ 32)
        (min (lag * max (sr / COARSE_SAMPLE_RATE) 1 + sr * 2 % 2 ^ 32)
          (wrapSub64 (e - QUERY_DURATION_SEC * sr) 1000))).2 (SqrtQ.ofRat (3 / 10)) = true
    · rw [if_pos h3] at h
      cases h
    rw [if_neg h3] at h
    push_neg at h2
    exact ⟨lag, rfl, h2, Bool.not_eq_true _ ▸ h3, (Option.some.inj h).symm⟩


/-- The reported confidence of a successful loop detection is exactly the
raw fine-pass correlation: below the 0.3 gate detection fails, the
radicand is a product of centered sums of squares (nonnegative), and
Cauchy-Schwarz bounds the denoted real to [-1, 1]. -/
theorem detect_loop_conf (mono : List ℚ) (sr e ch : ℕ) (lp : LoopPoints)
    (h : detect_loop_fft mono sr e ch = some lp) :
    ∃ lag, find_best_lag_fft (downsample (slice mono 0 e) (coarseF sr))
        (downsample (queryRaw mono sr e) (coarseF sr)) = some lag ∧
      lp.confidence = (find_best_match_ncc_fine (queryRaw mono sr e) mono
        (refineStart sr lag) (refineEnd sr lag e)).2 ∧
      SqrtQ.blt lp.confidence (SqrtQ.ofRat (3 / 10)) = false ∧
      0 ≤ lp.confidence.rad ∧
      -1 ≤ lp.confidence.toReal ∧ lp.confidence.toReal ≤ 1 := by
  obtain ⟨hq, lag, hlag, hlt, hgate, hlp⟩ := detect_loop_shape mono sr e ch lp h
  have hconf : lp.confidence = (find_best_match_ncc_fine (queryRaw mono sr e) mono
      (refineStart sr lag) (refineEnd sr lag e)).2 := by rw [hlp]
  refine ⟨lag, hlag, hconf, ?_, ?_, ?_, ?_⟩
  · rw [hconf]; exact hgate
  · rw [hconf]; exact fine_rad_nonneg _ _ _ _
  · rw [hconf]; exact (fine_toReal_bound _ _ _ _).1
  · rw [hconf]; exact (fine_toReal_bound _ _ _ _).2

/-- A successful loop detection ends exactly at the searchable-region end
(in interleaved indices) and starts at a mono index strictly before it. -/
theorem detect_loop_bounds (mono : List ℚ) (sr e ch : ℕ) (lp : LoopPoints)
    (hlen : e ≤ mono.length) (h : detect_loop_fft mono sr e ch = some lp) :
    lp.end_sample = e * ch ∧ ∃ j, j < e ∧ lp.start_sample = j * ch := by
  obtain ⟨hq, lag, hlag, hlt, hgate, hlp⟩ := detect_loop_shape mono sr e ch lp h
  refine ⟨by rw [hlp], ?_⟩
  rcases fine_shape (queryRaw mono sr e) mono (refineStart sr lag) (refineEnd sr lag e)
    with hsh | hsh | ⟨i, hi1, hi2, hsh⟩
  · rw [hsh] at hgate
    have hg2 : SqrtQ.blt (SqrtQ.ofRat 0) (SqrtQ.ofRat (3 / 10)) = false := hgate
    rw [blt_zero_threshold] at hg2
    cases hg2
  · rw [hsh] at hgate
    have hg2 : SqrtQ.blt (SqrtQ.ofRat (-1)) (SqrtQ.ofRat (3 / 10)) = false := hgate
    rw [blt_negone_threshold] at hg2
    cases hg2
  · refine ⟨refineStart sr lag + (find_best_match_ncc_fine (queryRaw mono sr e) mono
      (refineStart sr lag) (refineEnd sr lag e)).1, ?_, by rw [hlp]⟩
    have hoff : (find_best_match_ncc_fine (queryRaw mono sr e) mono
        (refineStart sr lag) (refineEnd sr lag e)).1 = i - refineStart sr lag := by
      rw [hsh]
    rw [hoff]
    have hwin := refine_window_lt mono sr e lag hq hlen (coarse_some_lag_lt _ _ _ hlag)
    have hre : refineEnd sr lag e ≤ lag * coarseF sr + refineRadius sr := by
      unfold refineEnd
      exact min_le_left _ _
    omega

/-- The searchable-region end never exceeds the mono length. -/
theorem searchEnd_le_length (mono : List ℚ) (sr ch : ℕ) (s : AnalysisSettings)
    (hch : 1 ≤ ch) (fade : Option FadeOutInfo)
    (hfade : fade = none ∨ ∃ fo, fade = some fo ∧ detect_fade_out mono sr ch s = some fo) :
    searchEndIdx mono sr ch s fade ≤ mono.length := by
  rcases hfade with hf | ⟨fo, hf, hdet⟩
  · rw [hf]
    unfold searchEndIdx
    exact find_effective_end_le _ _
  · rw [hf]
    unfold searchEndIdx
    obtain ⟨hfo, h5, hw1, hwE, honset, hdur, hb1, hb2, hr1, hr0⟩ :=
      detect_fade_out_eq_some mono sr ch s fo hdet
    have hE := find_effective_end_le mono (s.fade_out_threshold_volume * (1 / 2))
    subst hfo
    simp only
    rw [Nat.mul_div_cancel _ (by omega : 0 < ch)]
    omega


theorem run_fade_eq (audio : AudioData) (settings : AnalysisSettings) :
    (run_analysis audio settings).fade_out_info =
      (if settings.fade_out_mode = FadeOutMode.None then none
       else detect_fade_out (mix_to_mono audio) audio.sample_rate audio.channels settings) :=
  rfl

theorem run_loop_some (audio : AudioData) (settings : AnalysisSettings) (lp : LoopPoints)
    (h : (run_analysis audio settings).loop_points = some lp) :
    loopPass (mix_to_mono audio) audio.sample_rate audio.channels settings
      ((run_analysis audio settings).fade_out_info) = some lp := by
  simp only [run_analysis] at h ⊢
  cases hdm : settings.detection_mode <;> rw [hdm] at h
  · exact h
  · exact h
  · exact Option.noConfusion h

theorem loopPass_some (mono : List ℚ) (sr ch : ℕ) (s : AnalysisSettings)
    (fade : Option FadeOutInfo) (lp : LoopPoints)
    (h : loopPass mono sr ch s fade = some lp) :
    MIN_LOOP_DURATION_SEC * sr ≤ searchEndIdx mono sr ch s fade ∧
    ∃ lp0, detect_loop_fft mono sr (searchEndIdx mono sr ch s fade) ch = some lp0 ∧
      lp = (if searchEndIdx mono sr ch s fade * ch < lp0.end_sample
        then { lp0 with end_sample := searchEndIdx mono sr ch s fade * ch } else lp0) := by
  simp only [loopPass] at h
  by_cases h1 : searchEndIdx mono sr ch s fade < MIN_LOOP_DURATION_SEC * sr
  · rw [if_pos h1] at h
    cases h
  rw [if_neg h1] at h
  refine ⟨by omega, ?_⟩
  cases hdet : detect_loop_fft mono sr (searchEndIdx mono sr ch s fade) ch with
  | none =>
    rw [hdet] at h
    exact Option.noConfusion h
  | some lp0 =>
    rw [hdet] at h
    dsimp only at h
    refine ⟨lp0, rfl, ?_⟩
    by_cases h2 : searchEndIdx mono sr ch s fade * ch < lp0.end_sample
    · rw [if_pos h2] at h
      rw [if_pos h2]
      exact (Option.some.inj h).symm
    · rw [if_neg h2] at h
      rw [if_neg h2]
      exact (Option.some.inj h).symm

/-- Full description of a run that produced loop points, with the
searchable-region end e: the length gate passed, the detector produced
exactly lp (the end clamp is the identity because the detected end already
sits at e * channels), and the structural bounds hold. -/
theorem run_loop_full (audio : AudioData) (settings : AnalysisSettings) (lp : LoopPoints)
    (hch : 1 ≤ audio.channels)
    (h : (run_analysis audio settings).loop_points = some lp) :
    searchEndIdx (mix_to_mono audio) audio.sample_rate audio.channels settings
        ((run_analysis audio settings).fade_out_info) ≤ (mix_to_mono audio).length ∧
    MIN_LOOP_DURATION_SEC * audio.sample_rate ≤
      searchEndIdx (mix_to_mono audio) audio.sample_rate audio.channels settings
        ((run_analysis audio settings).fade_out_info) ∧
    detect_loop_fft (mix_to_mono audio) audio.sample_rate
      (searchEndIdx (mix_to_mono audio) audio.sample_rate audio.channels settings
        ((run_analysis audio settings).fade_out_info)) audio.channels = some lp ∧
    lp.end_sample = searchEndIdx (mix_to_mono audio) audio.sample_rate audio.channels settings
        ((run_analysis audio settings).fade_out_info) * audio.channels ∧
    ∃ j, j < searchEndIdx (mix_to_mono audio) audio.sample_rate audio.channels settings
        ((run_analysis audio settings).fade_out_info) ∧
      lp.start_sample = j * audio.channels := by
  have hlp := run_loop_some audio settings lp h
  obtain ⟨hmin, lp0, hdet, hclamp⟩ := loopPass_some _ _ _ _ _ _ hlp
  have hfade : (run_analysis audio settings).fade_out_info = none ∨
      ∃ fo, (run_analysis audio settings).fade_out_info = some fo ∧
        detect_fade_out (mix_to_mono audio) audio.sample_rate audio.channels settings
          = some fo := by
    rw [run_fade_eq]
    by_cases hm : settings.fade_out_mode = FadeOutMode.None
    · rw [if_pos hm]
      exact Or.inl rfl
    · rw [if_neg hm]
      cases hd : detect_fade_out (mix_to_mono audio) audio.sample_rate audio.channels
          settings with
      | none => exact Or.inl rfl
      | some fo => exact Or.inr ⟨fo, rfl, rfl⟩
  have hlen := searchEnd_le_length (mix_to_mono audio) audio.sample_rate audio.channels
    settings hch _ hfade
  have hb := detect_loop_bounds _ _ _ _ lp0 hlen hdet
  have hid : lp = lp0 := by
    have hc := hclamp
    rw [hb.1, if_neg (lt_irrefl _)] at hc
    exact hc
  obtain ⟨j, hj, hstart⟩ := hb.2
  exact ⟨hlen, hmin, by rw [hid]; exact hdet, by rw [hid]; exact hb.1,
    j, hj, by rw [hid]; exact hstart⟩

/-- C3: a loop candidate whose best normalized cross-correlation falls
below 0.3 is rejected (detect_loop_fft returns None), so every LoopPoints
value it or run_analysis ever returns carries a confidence denoting a real
at least 0.3. -/
theorem C3_confidence_floor :
    (∀ (mono : List ℚ) (sr e ch : ℕ) (lp : LoopPoints),
      detect_loop_fft mono sr e ch = some lp → (3 : ℝ) / 10 ≤ lp.confidence.toReal) ∧
    (∀ (audio : AudioData) (settings : AnalysisSettings) (lp : LoopPoints),
      (run_analysis audio settings).loop_points = some lp →
      (3 : ℝ) / 10 ≤ lp.confidence.toReal) := by
  have hdet : ∀ (mono : List ℚ) (sr e ch : ℕ) (lp : LoopPoints),
      detect_loop_fft mono sr e ch = some lp → (3 : ℝ) / 10 ≤ lp.confidence.toReal := by
    intro mono sr e ch lp h
    obtain ⟨lag, _, _, hgate, hrad, _, _⟩ := detect_loop_conf mono sr e ch lp h
    have hle := SqrtQ.le_of_blt_false _ _ hrad (by norm_num [SqrtQ.ofRat]) hgate
    rw [SqrtQ.toReal_ofRat] at hle
    have hc : (((3 : ℚ) / 10 : ℚ) : ℝ) = (3 : ℝ) / 10 := by norm_num
    rwa [hc] at hle
  refine ⟨hdet, ?_⟩
  intro audio settings lp h
  have hlp := run_loop_some audio settings lp h
  obtain ⟨hmin, lp0, hdet0, hclamp⟩ := loopPass_some _ _ _ _ _ _ hlp
  have hconf : lp.confidence = lp0.confidence := by
    rw [hclamp]
    by_cases h2 : searchEndIdx (mix_to_mono audio) audio.sample_rate audio.channels settings
        ((run_analysis audio settings).fade_out_info) * audio.channels < lp0.end_sample
    · rw [if_pos h2]
    · rw [if_neg h2]
  rw [hconf]
  exact hdet _ _ _ _ _ hdet0

/-- C3 witness: audio2 produces loop points and their confidence (exactly
1) is at least 0.3. -/
theorem C3_confidence_floor_witness :
    (run_analysis audio2 settings2).loop_points = some lp2v ∧
    (3 : ℝ) / 10 ≤ lp2v.confidence.toReal := by
  have h : (run_analysis audio2 settings2).loop_points = some lp2v := by rw [run2_eval]
  exact ⟨h, C3_confidence_floor.2 audio2 settings2 lp2v h⟩

/-- C5: every LoopPoints value produced by run_analysis satisfies
start_sample < end_sample ≤ len(samples) in the original interleaved index
space (0 ≤ start_sample holds inherently for Nat indices), and its
confidence denotes a real in [-1, 1], given the data-model invariant that
channels ≥ 1 divides the interleaved length. -/
theorem C5_loop_points_invariants (audio : AudioData) (settings : AnalysisSettings)
    (lp : LoopPoints) (hch : 1 ≤ audio.channels)
    (hdvd : audio.samples.length % audio.channels = 0)
    (h : (run_analysis audio settings).loop_points = some lp) :
    lp.start_sample < lp.end_sample ∧ lp.end_sample ≤ audio.samples.length ∧
    -1 ≤ lp.confidence.toReal ∧ lp.confidence.toReal ≤ 1 := by
  obtain ⟨hlen, hmin, hdet, hend, j, hj, hstart⟩ := run_loop_full audio settings lp hch h
  obtain ⟨lag, _, _, _, _, hb1, hb2⟩ := detect_loop_conf _ _ _ _ lp hdet
  refine ⟨?_, ?_, hb1, hb2⟩
  · rw [hstart, hend]
    exact Nat.mul_lt_mul_of_lt_of_le hj (le_refl _) (by omega)
  · rw [hend]
    have h1 : searchEndIdx (mix_to_mono audio) audio.sample_rate audio.channels settings
        ((run_analysis audio settings).fade_out_info) * audio.channels ≤
        (mix_to_mono audio).length * audio.channels := Nat.mul_le_mul_right _ hlen
    have h2 : (mix_to_mono audio).length * audio.channels =
        audio.samples.length / audio.channels * audio.channels := by rw [mix_to_mono_length]
    have h3 : audio.samples.length / audio.channels * audio.channels ≤ audio.samples.length :=
      Nat.div_mul_le_self _ _
    omega

/-- C5 witness: the loop points found on audio2 satisfy all the
invariants. -/
theorem C5_loop_points_invariants_witness :
    (run_analysis audio2 settings2).loop_points = some lp2v ∧
    (lp2v.start_sample < lp2v.end_sample ∧ lp2v.end_sample ≤ audio2.samples.length ∧
      -1 ≤ lp2v.confidence.toReal ∧ lp2v.confidence.toReal ≤ 1) := by
  have h : (run_analysis audio2 settings2).loop_points = some lp2v := by rw [run2_eval]
  exact ⟨h, C5_loop_points_invariants audio2 settings2 lp2v (by decide)
    (by with_unfolding_all decide) h⟩


/-- C1 (amended): whenever a run reports both loop points and a fade-out,
the loop end equals (fade onset in mono indices minus the fade-out buffer
converted to samples) times the channel count, it never exceeds the fade
onset, the loop stays at least one sample longer than its start, and the
bound is strict whenever the buffer converts to at least one sample
(channels ≥ 1).  As stated in the claim (strict for every settings) the
property fails when fade_out_buffer_ms converts to zero samples, see the
counterexample. -/
theorem C1_fade_reconciliation (audio : AudioData) (settings : AnalysisSettings)
    (lp : LoopPoints) (fo : FadeOutInfo) (hch : 1 ≤ audio.channels)
    (hl : (run_analysis audio settings).loop_points = some lp)
    (hf : (run_analysis audio settings).fade_out_info = some fo) :
    lp.end_sample = (fo.start_sample / audio.channels -
      msToSamples settings.fade_out_buffer_ms audio.sample_rate) * audio.channels ∧
    lp.end_sample ≤ fo.start_sample ∧
    lp.start_sample < lp.end_sample ∧
    (1 ≤ msToSamples settings.fade_out_buffer_ms audio.sample_rate →
      lp.end_sample < fo.start_sample) := by
  obtain ⟨hlen, hmin, hdet, hend, j, hj, hstart⟩ := run_loop_full audio settings lp hch hl
  have he : searchEndIdx (mix_to_mono audio) audio.sample_rate audio.channels settings
      ((run_analysis audio settings).fade_out_info) =
      fo.start_sample / audio.channels -
        msToSamples settings.fade_out_buffer_ms audio.sample_rate := by
    rw [hf]
    rfl
  rw [he] at hend hj
  refine ⟨hend, ?_, ?_, ?_⟩
  · rw [hend]
    have h1 : (fo.start_sample / audio.channels -
        msToSamples settings.fade_out_buffer_ms audio.sample_rate) * audio.channels ≤
        fo.start_sample / audio.channels * audio.channels :=
      Nat.mul_le_mul_right _ (Nat.sub_le _ _)
    have h2 : fo.start_sample / audio.channels * audio.channels ≤ fo.start_sample :=
      Nat.div_mul_le_self _ _
    omega
  · rw [hstart, hend]
    exact Nat.mul_lt_mul_of_lt_of_le hj (le_refl _) (by omega)
  · intro hbuf
    rw [hend]
    have hq1 : 1 ≤ fo.start_sample / audio.channels -
        msToSamples settings.fade_out_buffer_ms audio.sample_rate := by omega
    have hle : fo.start_sample / audio.channels -
        msToSamples settings.fade_out_buffer_ms audio.sample_rate ≤
        fo.start_sample / audio.channels - 1 := by omega
    have h3 := Nat.mul_le_mul_right audio.channels hle
    have h4 : (fo.start_sample / audio.channels - 1) * audio.channels =
        fo.start_sample / audio.channels * audio.channels - audio.channels := by
      rw [Nat.sub_mul, one_mul]
    have h5 : fo.start_sample / audio.channels * audio.channels ≤ fo.start_sample :=
      Nat.div_mul_le_self _ _
    have h6 : audio.channels ≤ fo.start_sample / audio.channels * audio.channels := by
      have : 1 * audio.channels ≤ fo.start_sample / audio.channels * audio.channels :=
        Nat.mul_le_mul_right _ (by omega)
      omega
    omega

/-- C1 counterexample: on audio1 with fade_out_buffer_ms = 0 both results
are present and the loop end equals the fade onset (both 116), refuting
the claimed strict inequality for arbitrary settings. -/
theorem C1_fade_reconciliation_counterexample :
    (run_analysis audio1 settings1).loop_points = some lp1v ∧
    (run_analysis audio1 settings1).fade_out_info = some fo1v ∧
    lp1v.end_sample = fo1v.start_sample := by
  rw [run1_eval]
  exact ⟨rfl, rfl, rfl⟩

/-- C1 witness: the amended statement instantiated on audio1. -/
theorem C1_fade_reconciliation_witness :
    (run_analysis audio1 settings1).loop_points = some lp1v ∧
    (run_analysis audio1 settings1).fade_out_info = some fo1v ∧
    (lp1v.end_sample = (fo1v.start_sample / audio1.channels -
        msToSamples settings1.fade_out_buffer_ms audio1.sample_rate) * audio1.channels ∧
      lp1v.end_sample ≤ fo1v.start_sample ∧
      lp1v.start_sample < lp1v.end_sample ∧
      (1 ≤ msToSamples settings1.fade_out_buffer_ms audio1.sample_rate →
        lp1v.end_sample < fo1v.start_sample)) := by
  have h1 : (run_analysis audio1 settings1).loop_points = some lp1v := by rw [run1_eval]
  have h2 : (run_analysis audio1 settings1).fade_out_info = some fo1v := by rw [run1_eval]
  exact ⟨h1, h2, C1_fade_reconciliation audio1 settings1 lp1v fo1v (by decide) h1 h2⟩

/-- C2 (amended): the confidence reported for a loop candidate is exactly
the raw fine-pass normalized cross-correlation: the code applies no
volume-ratio correction. -/
theorem C2_confidence_unadjusted (mono : List ℚ) (sr e ch : ℕ) (lp : LoopPoints)
    (lag : ℕ) (h : detect_loop_fft mono sr e ch = some lp)
    (hlag : find_best_lag_fft (downsample (slice mono 0 e) (coarseF sr))
      (downsample (queryRaw mono sr e) (coarseF sr)) = some lag) :
    lp.confidence = (find_best_match_ncc_fine (queryRaw mono sr e) mono
      (refineStart sr lag) (refineEnd sr lag e)).2 := by
  obtain ⟨lag0, hlag0, hconf, _, _, _, _⟩ := detect_loop_conf mono sr e ch lp h
  have heq : lag0 = lag := by
    rw [hlag0] at hlag
    exact Option.some.inj hlag
  rw [← heq]
  exact hconf

/-- C2 witness: on audio2 the detector reports the raw fine-pass
correlation of the window projected from coarse lag 0. -/
theorem C2_confidence_unadjusted_witness :
    detect_loop_fft (mix_to_mono audio2) 1 116 1 = some lp2v ∧
    lp2v.confidence = (find_best_match_ncc_fine (queryRaw (mix_to_mono audio2) 1 116)
      (mix_to_mono audio2) (refineStart 1 0) (refineEnd 1 0 116)).2 :=
  ⟨detect2_eval, C2_confidence_unadjusted (mix_to_mono audio2) 1 116 1 lp2v 0 detect2_eval
    (by with_unfolding_all rfl)⟩

/-- C2 counterexample: on audio2 the run reports a loop whose confidence
denotes exactly 1, while the matched window (the half-amplitude copy at
offset 0) has half the RMS of the query window, so the volume-ratio
correction described by the claim (ratio < 0.8 multiplies the confidence
by 0.8) would have reported 0.8, not 1. -/
theorem C2_confidence_unadjusted_counterexample :
    (run_analysis audio2 settings2).loop_points = some lp2v ∧
    lp2v.confidence.toReal = 1 ∧
    specVolumeRatioAdjust lp2v.confidence.toReal
      ((calculate_rms (slice (mix_to_mono audio2) 0 15)).toReal /
        ((calculate_rms (slice (mix_to_mono audio2) 101 116)).toReal + ((EPS : ℚ) : ℝ)))
      = 8 / 10 ∧
    ((8 : ℝ) / 10) ≠ 1 := by
  have hone : lp2v.confidence.toReal = 1 := by
    show ((15 / 28 : ℚ) : ℝ) * Real.sqrt ((784 / 225 : ℚ) : ℝ) = 1
    rw [show ((784 / 225 : ℚ) : ℝ) = ((28 : ℝ) / 15) ^ 2 by norm_num,
      Real.sqrt_sq (by norm_num)]
    norm_num
  have hm : calculate_rms (slice (mix_to_mono audio2) 0 15) =
      SqrtQ.sqrtQ ((15 / 16) / (15 + EPS)) := by
    with_unfolding_all rfl
  have hq : calculate_rms (slice (mix_to_mono audio2) 101 116) =
      SqrtQ.sqrtQ ((15 / 4) / (15 + EPS)) := by
    with_unfolding_all rfl
  have hX : (0 : ℝ) < ((15 + EPS : ℚ) : ℝ) := by
    unfold EPS
    norm_num
  have hhalf : (calculate_rms (slice (mix_to_mono audio2) 0 15)).toReal =
      (calculate_rms (slice (mix_to_mono audio2) 101 116)).toReal / 2 := by
    rw [hm, hq, SqrtQ.toReal_sqrtQ, SqrtQ.toReal_sqrtQ]
    have hcast1 : (((15 / 16 : ℚ) / (15 + EPS) : ℚ) : ℝ) =
        (((15 / 4 : ℚ) / (15 + EPS) : ℚ) : ℝ) / 4 := by
      push_cast
      ring
    rw [hcast1, Real.sqrt_div' _ (by norm_num : (0 : ℝ) ≤ 4)]
    rw [show Real.sqrt (4 : ℝ) = 2 from by
      rw [show (4 : ℝ) = 2 ^ 2 by norm_num, Real.sqrt_sq (by norm_num)]]
  have hq0 : 0 ≤ (calculate_rms (slice (mix_to_mono audio2) 101 116)).toReal := by
    rw [hq, SqrtQ.toReal_sqrtQ]
    exact Real.sqrt_nonneg _
  have heps : (0 : ℝ) < ((EPS : ℚ) : ℝ) := by
    unfold EPS
    norm_num
  have hratio : (calculate_rms (slice (mix_to_mono audio2) 0 15)).toReal /
      ((calculate_rms (slice (mix_to_mono audio2) 101 116)).toReal + ((EPS : ℚ) : ℝ)) ≤
      1 / 2 := by
    rw [hhalf]
    have hpos : 0 < (calculate_rms (slice (mix_to_mono audio2) 101 116)).toReal +
        ((EPS : ℚ) : ℝ) := by linarith
    rw [div_le_div_iff hpos (by norm_num : (0 : ℝ) < 2)]
    ring_nf
    linarith
  have hlt8 : (calculate_rms (slice (mix_to_mono audio2) 0 15)).toReal /
      ((calculate_rms (slice (mix_to_mono audio2) 101 116)).toReal + ((EPS : ℚ) : ℝ)) <
      8 / 10 := lt_of_le_of_lt hratio (by norm_num)
  have hadj : specVolumeRatioAdjust lp2v.confidence.toReal
      ((calculate_rms (slice (mix_to_mono audio2) 0 15)).toReal /
        ((calculate_rms (slice (mix_to_mono audio2) 101 116)).toReal + ((EPS : ℚ) : ℝ)))
      = 8 / 10 := by
    rw [hone]
    unfold specVolumeRatioAdjust
    rw [if_neg, if_pos hlt8]
    · norm_num
    · rintro ⟨h12, -⟩
      linarith
  exact ⟨by rw [run2_eval], hone, hadj, by norm_num⟩


set_option maxRecDepth 1000000 in
/-- C6 (code-bug probe): on audio1 (sample_rate 1, 123 samples) the run
reaches the expression query_start_idx - 1000 of analysis.rs line 140 with
query_start_idx = 101 < 1000, so the unguarded usize subtraction
underflows there: debug builds panic at that line, contradicting the
no-panic claim; release builds wrap modulo 2^64 (the wrapSub64 semantics
used by the rest of this embedding).  Every division the engine performs
is guarded (the epsilon guards of the correlation denominators and RMS,
and structurally positive counts), and every rejection path yields None;
the unguarded subtraction is the single violation of the claim. -/
theorem C6_refine_underflow_reached :
    reachesRefineUnderflow audio1 settings1 = true := by
  with_unfolding_all rfl

end AutoAbloop
